import Mathlib

/-!
Verification of the Jira workflow state-machine and transition-path engine
(`src/utils/jira.js`) and the commit-scan early-stop loop
(`src/update_jira/index.js`) of the notion-scripts repository.

The JavaScript source is shallowly embedded: JS `Map` objects become
association lists, thrown errors become `Except`, asynchronous backend calls
become typed oracle functions plus an explicit request log, and the two
search loops become fuel-bounded recursions whose fuel dominates the number
of iterations the JS loops can perform.
-/

namespace Jira

/-- Maximum path depth guard (`JIRA_CONSTANTS.VALIDATION.MAX_PATH_DEPTH`). -/
def maxPathDepth : Nat := 10

/-- Errors raised by the Jira client, one constructor per error class of the
source (`JiraValidationError`, `JiraApiError`, `JiraWorkflowError`,
`JiraTransitionError`). -/
inductive JErr where
  | validation (message field : String)
  | api (statusCode : Nat) (endpoint : String)
  | workflow (message : String)
  | transition (message issueKey : String)
  deriving Repr, DecidableEq

/-- A workflow status node `{ id, name, statusCategory }` as stored in
`stateMachine.states` by `getWorkflowStateMachine`; the `id` is the map key
of the enclosing association list. -/
structure StatusInfo where
  name : String
  statusCategory : String := ""
  deriving Repr, DecidableEq

/-- A workflow transition record `{ id, name, from, to, hasScreen }` as
built by `getWorkflowStateMachine`. -/
structure WfTransition where
  id : String
  name : String
  fromIds : List String := []
  toId : String := ""
  hasScreen : Bool := false
  deriving Repr, DecidableEq

/-- The in-memory workflow state machine. `states` models the JS object
`statusId → status` (entries in enumeration order) and `transitionMap`
models `Map<fromStatusId, Map<toStatusId, transition>>`. -/
structure StateMachine where
  name : String := ""
  states : List (String × StatusInfo)
  transitions : List WfTransition := []
  transitionMap : List (String × List (String × WfTransition))
  deriving Repr, DecidableEq

/-- First-match association lookup, modelling `Map.get` and object
indexing (JS map keys are unique, so the first match is the only match). -/
def lookupA {α : Type} : List (String × α) → String → Option α
  | [], _ => none
  | (k, v) :: rest, key => if k = key then some v else lookupA rest key

/-- `Map.set` semantics: replace the value at an existing key in place,
otherwise append the new binding. -/
def setA {α : Type} : List (String × α) → String → α → List (String × α)
  | [], key, v => [(key, v)]
  | (k, w) :: rest, key, v =>
    if k = key then (k, v) :: rest else (k, w) :: setA rest key v

/-- One step of a transition path, as pushed by both path finders:
`{ id, name, from, to, fromName, toName }`. -/
structure Step where
  id : String
  name : String
  fromId : String
  toId : String
  fromName : String
  toName : String
  deriving Repr, DecidableEq

/-- Status-name lookup used when a step is materialised
(`stateMachine.states[statusId].name`). -/
def stateName (sm : StateMachine) (statusId : String) : String :=
  ((lookupA sm.states statusId).map (fun s => s.name)).getD ""

/-- The step record pushed on a path for the edge `cur → next` via `t`. -/
def mkStep (sm : StateMachine) (t : WfTransition) (cur next : String) : Step :=
  { id := t.id, name := t.name, fromId := cur, toId := next,
    fromName := stateName sm cur, toName := stateName sm next }

/-- Resolve a status name to an id by scanning `Object.entries(states)`;
the JS loop assigns on every match, so the last matching entry wins. -/
def resolveStatusId (states : List (String × StatusInfo)) (statusName : String) :
    Option String :=
  states.foldl (fun acc p => if p.2.name = statusName then some p.1 else acc) none

/-- Ids of the statuses whose name occurs in the exclusion list (the
`excludeStatusIds` set of `findShortestTransitionPath`; the JS `Set` only
deduplicates identical ids, which cannot change membership). -/
def collectExcludedIds (states : List (String × StatusInfo))
    (excludeStates : List String) : List String :=
  states.foldl (fun acc p => if p.2.name ∈ excludeStates then acc ++ [p.1] else acc) []

/-- JS falsiness of the nullable id variables: `!fromStatusId` is true for
`null` and for the empty string. -/
def falsyId : Option String → Bool
  | none => true
  | some s => s = ""

/-- A BFS queue entry `{ statusId, path }`. -/
structure BfsEntry where
  statusId : String
  path : List Step
  deriving Repr, DecidableEq

/-- The `for (const [nextStatusId, transition] of transitions)` loop body of
`findShortestTransitionPath`: skip excluded destinations unless the target,
return the finished path when the target is reached, otherwise enqueue
unvisited neighbours. `Sum.inl` is the early `return` of the found path,
`Sum.inr` the updated `(visited, queue)` pair. -/
def bfsScan (sm : StateMachine) (toId : String) (excludeIds : List String)
    (cur : String) (path : List Step) :
    List (String × WfTransition) → List String → List BfsEntry →
    List Step ⊕ (List String × List BfsEntry)
  | [], visited, queue => Sum.inr (visited, queue)
  | (next, t) :: rest, visited, queue =>
    if next ∈ excludeIds ∧ next ≠ toId then
      bfsScan sm toId excludeIds cur path rest visited queue
    else if next = toId then
      Sum.inl (path ++ [mkStep sm t cur next])
    else if next ∈ visited then
      bfsScan sm toId excludeIds cur path rest visited queue
    else
      bfsScan sm toId excludeIds cur path rest (visited ++ [next])
        (queue ++ [⟨next, path ++ [mkStep sm t cur next]⟩])

/-- The `while (queue.length > 0)` loop of `findShortestTransitionPath`.
`fuel` bounds the number of iterations; the wrapper passes more fuel than
the loop can consume (each iteration pops one entry and every status is
enqueued at most once, so iterations never exceed one plus the number of
transition-map edges). -/
def bfsLoop (sm : StateMachine) (toId : String) (excludeIds : List String) :
    Nat → List BfsEntry → List String → Option (List Step)
  | 0, _, _ => none
  | _ + 1, [], _ => none
  | fuel + 1, e :: rest, visited =>
    if e.path.length > maxPathDepth then none
    else
      match lookupA sm.transitionMap e.statusId with
      | none => bfsLoop sm toId excludeIds fuel rest visited
      | some neighbors =>
        match bfsScan sm toId excludeIds e.statusId e.path neighbors visited rest with
        | Sum.inl found => some found
        | Sum.inr (visited', queue') => bfsLoop sm toId excludeIds fuel queue' visited'

/-- Fuel strictly dominating the number of BFS iterations: one per initial
entry plus at most one enqueue per transition-map edge. -/
def bfsFuel (sm : StateMachine) : Nat :=
  (sm.transitionMap.map (fun p => p.2.length)).sum + 2

/-- `Jira.findShortestTransitionPath(stateMachine, fromStatusName,
toStatusName, excludeStates)`: resolve names to ids (a validation error when
a resolved id is JS-falsy), return the empty path when source and target
coincide, `null` when the target itself is excluded, otherwise run the BFS.
`.ok none` models the JS `null` return. -/
def findShortestTransitionPath (sm : StateMachine)
    (fromStatusName toStatusName : String)
    (excludeStates : List String := []) : Except JErr (Option (List Step)) :=
  let fromStatusId := resolveStatusId sm.states fromStatusName
  let toStatusId := resolveStatusId sm.states toStatusName
  let excludeStatusIds := collectExcludedIds sm.states excludeStates
  if falsyId fromStatusId ∨ falsyId toStatusId then
    Except.error (JErr.validation "Status not found" "statusName")
  else
    let fromId := fromStatusId.getD ""
    let toId := toStatusId.getD ""
    if fromId = toId then Except.ok (some [])
    else if toId ∈ excludeStatusIds then Except.ok none
    else Except.ok (bfsLoop sm toId excludeStatusIds (bfsFuel sm) [⟨fromId, []⟩] [fromId])

/-- The recursive `dfs` of `findAllTransitionPaths`. The accumulated
`paths` are threaded; `visited` models the shared mutable set, which each
call extends on entry and restores on exit, so recursive calls simply
receive the extended set. `fuel` bounds the recursion depth; the depth
guard returns before fuel can run out when the wrapper passes
`maxPathDepth + 2`. -/
def dfs (sm : StateMachine) (toId : String) :
    Nat → String → List Step → List String → List (List Step) → List (List Step)
  | 0, _, _, _, paths => paths
  | fuel + 1, cur, path, visited, paths =>
    if cur = toId then paths ++ [path]
    else if path.length > maxPathDepth then paths
    else
      let visited' := visited ++ [cur]
      match lookupA sm.transitionMap cur with
      | none => paths
      | some neighbors =>
        neighbors.foldl
          (fun acc p =>
            if p.1 ∈ visited' then acc
            else dfs sm toId fuel p.1 (path ++ [mkStep sm p.2 cur p.1]) visited' acc)
          paths

/-- `Jira.findAllTransitionPaths(stateMachine, fromStatusName,
toStatusName)`: exhaustive DFS enumeration of transition paths. -/
def findAllTransitionPaths (sm : StateMachine)
    (fromStatusName toStatusName : String) : Except JErr (List (List Step)) :=
  let fromStatusId := resolveStatusId sm.states fromStatusName
  let toStatusId := resolveStatusId sm.states toStatusName
  if falsyId fromStatusId ∨ falsyId toStatusId then
    Except.error (JErr.validation "Status not found" "statusName")
  else
    let fromId := fromStatusId.getD ""
    let toId := toStatusId.getD ""
    if fromId = toId then Except.ok [[]]
    else Except.ok (dfs sm toId (maxPathDepth + 2) fromId [] [] [])

/-! ## Transport retry policy (`Jira.request`) -/

/-- `JIRA_CONSTANTS.RETRY.MAX_ATTEMPTS`. -/
def maxAttemptsR : Nat := 3

/-- `JIRA_CONSTANTS.RETRY.BACKOFF_MULTIPLIER`. -/
def backoffMultiplier : Nat := 2

/-- `JIRA_CONSTANTS.DELAYS.RETRY_BASE_MS`. -/
def retryBaseMs : Nat := 1000

/-- `JIRA_CONSTANTS.DELAYS.RATE_LIMIT_DEFAULT_S`. -/
def rateLimitDefaultS : Nat := 60

/-- Outcome of one `fetch` attempt: a network-level failure (the `catch`
path, no response at all) or a response with an HTTP status and an
optional `Retry-After` header value in seconds. -/
inductive FetchOutcome where
  | network
  | response (status : Nat) (retryAfter : Option Nat)
  deriving Repr, DecidableEq

/-- One attempt as recorded in a request trace: the outcome observed and
the delay slept before the next attempt (`none` when the attempt was the
last one). -/
structure AttemptRecord where
  outcome : FetchOutcome
  delayMs : Option Nat
  deriving Repr, DecidableEq

/-- `response.ok`: HTTP status in the 2xx range. -/
def okStatus (status : Nat) : Bool := 200 ≤ status ∧ status ≤ 299

/-- The body of `Jira.request(endpoint, options, retryCount)`, with the
`fetch` calls abstracted by an oracle giving the outcome of each attempt
index. Returns the final result together with the trace of attempts.
Control flow follows the source: a 429 under the retry cap sleeps
`Retry-After` seconds (default 60) and recurses; any other non-2xx at or
above 500 under the cap sleeps `1000 * 2^retryCount` and recurses; other
non-2xx statuses throw immediately; network errors retry like 5xx and
throw an API error with status 0 once the cap is reached. `fuel` only
bounds the recursion depth: every retry requires `rc < maxAttemptsR`, so
the wrapper's fuel is never exhausted. -/
def requestSimGo (attempt : Nat → FetchOutcome) (endpoint : String) :
    Nat → Nat → Except JErr Unit × List AttemptRecord
  | 0, _ => (Except.error (JErr.api 0 endpoint), [])
  | fuel + 1, rc =>
    match attempt rc with
    | FetchOutcome.network =>
      if rc < maxAttemptsR then
        let r := requestSimGo attempt endpoint fuel (rc + 1)
        (r.1, ⟨FetchOutcome.network, some (retryBaseMs * backoffMultiplier ^ rc)⟩ :: r.2)
      else
        (Except.error (JErr.api 0 endpoint), [⟨FetchOutcome.network, none⟩])
    | FetchOutcome.response status retryAfter =>
      if status = 429 ∧ rc < maxAttemptsR then
        let r := requestSimGo attempt endpoint fuel (rc + 1)
        (r.1, ⟨FetchOutcome.response status retryAfter,
          some ((retryAfter.getD rateLimitDefaultS) * 1000)⟩ :: r.2)
      else if okStatus status then
        (Except.ok (), [⟨FetchOutcome.response status retryAfter, none⟩])
      else if 500 ≤ status ∧ rc < maxAttemptsR then
        let r := requestSimGo attempt endpoint fuel (rc + 1)
        (r.1, ⟨FetchOutcome.response status retryAfter,
          some (retryBaseMs * backoffMultiplier ^ rc)⟩ :: r.2)
      else
        (Except.error (JErr.api status endpoint),
          [⟨FetchOutcome.response status retryAfter, none⟩])

/-- `Jira.request` entered at retry count `rc` (the public entry point uses
`rc = 0`). -/
def requestSim (attempt : Nat → FetchOutcome) (endpoint : String) (rc : Nat) :
    Except JErr Unit × List AttemptRecord :=
  requestSimGo attempt endpoint (maxAttemptsR + 1 - rc) rc

/-! ## Commit-scan status-check loop (`fetchCommitsAndExtractIssues`) -/

/-- Result of the per-batch status-check loop of
`fetchCommitsAndExtractIssues`: `stop keys` models the early
`return allIssueKeys` once the consecutive-done threshold is reached,
`next count keys` the fall-through to the next page with the updated
counter and accumulated keys. -/
inductive ScanOutcome where
  | stop (keys : List String)
  | next (count : Nat) (keys : List String)
  deriving Repr, DecidableEq

/-- The `for (const issueKey of batchIssueKeys)` status-check loop of
`fetchCommitsAndExtractIssues` (src/update_jira/index.js): fetch the
issue's status; when it equals the target, increment the consecutive-done
counter and return the accumulated keys once the threshold is reached;
when it differs, reset the counter to zero and record the key as needing
update; when the fetch fails, skip the issue and reset the counter to zero
(the `catch` block). -/
def checkIssuesLoop (statusOf : String → Except JErr String)
    (targetStatus : String) (threshold : Nat) :
    List String → Nat → List String → ScanOutcome
  | [], count, keys => ScanOutcome.next count keys
  | k :: rest, count, keys =>
    match statusOf k with
    | Except.ok currentStatus =>
      if currentStatus = targetStatus then
        if threshold ≤ count + 1 then ScanOutcome.stop keys
        else checkIssuesLoop statusOf targetStatus threshold rest (count + 1) keys
      else
        checkIssuesLoop statusOf targetStatus threshold rest 0 (keys ++ [k])
    | Except.error _ =>
      checkIssuesLoop statusOf targetStatus threshold rest 0 keys

/-- Modelled from the amended claim, one issue at a time: a confirmed
target-status match increments the counter and stops the scan at the
threshold; a confirmed different status resets the counter to zero and
records the key; a fetch error skips the issue (neither counted as done
nor recorded) and also resets the counter to zero. A stopped scan absorbs
the remaining issues. -/
def scanSpecStep (statusOf : String → Except JErr String) (targetStatus : String)
    (threshold : Nat) (st : ScanOutcome) (k : String) : ScanOutcome :=
  match st with
  | ScanOutcome.stop keys => ScanOutcome.stop keys
  | ScanOutcome.next count keys =>
    match statusOf k with
    | Except.error _ => ScanOutcome.next 0 keys
    | Except.ok s =>
      if s = targetStatus then
        if threshold ≤ count + 1 then ScanOutcome.stop keys
        else ScanOutcome.next (count + 1) keys
      else ScanOutcome.next 0 (keys ++ [k])

/-- The whole batch scan according to the amended claim: a left fold of
`scanSpecStep` over the batch. -/
def scanSpec (statusOf : String → Except JErr String) (targetStatus : String)
    (threshold : Nat) (batch : List String) (count : Nat) (keys : List String) :
    ScanOutcome :=
  batch.foldl (scanSpecStep statusOf targetStatus threshold)
    (ScanOutcome.next count keys)

/-! ## The Jira client: backend oracle, request log, operations -/

/-- A JS value passed where a string is expected: an actual string, or any
value whose `typeof` is not `'string'` (`null`, `undefined`, a number, …).
The validators reject the latter uniformly. -/
inductive JsInput where
  | jstr (s : String)
  | nonString
  deriving Repr, DecidableEq

def isJsSpace (c : Char) : Bool := c = ' ' ∨ c = '\t' ∨ c = '\n' ∨ c = '\r'

/-- JS `String.prototype.trim`, modelled for ASCII whitespace: drop leading
and trailing whitespace characters. -/
def jsTrim (s : String) : String :=
  String.mk (((s.data.dropWhile isJsSpace).reverse.dropWhile isJsSpace).reverse)

/-- JS `String.prototype.toUpperCase`, modelled for ASCII characters. -/
def jsUpper (s : String) : String := String.mk (s.data.map Char.toUpper)

def isUpperAlpha (c : Char) : Bool := 'A' ≤ c ∧ c ≤ 'Z'

def isDigitChar (c : Char) : Bool := '0' ≤ c ∧ c ≤ '9'

def isUpperAlphaNum (c : Char) : Bool := isUpperAlpha c ∨ isDigitChar c

/-- `ISSUE_KEY_PATTERN = /^[A-Z][A-Z0-9]+-\d+$/`: one upper-case letter,
at least one upper-case letter or digit, a hyphen, at least one digit.
Since `-` belongs to neither character class, the separator is forced to
be the first hyphen and the greedy classes cannot backtrack past it, so
the regex is decided by splitting at that hyphen. -/
def issueKeyPattern (s : String) : Bool :=
  match s.toList with
  | [] => false
  | c :: rest =>
    let alnum := rest.takeWhile isUpperAlphaNum
    let rest2 := rest.dropWhile isUpperAlphaNum
    isUpperAlpha c && decide (1 ≤ alnum.length) &&
      (match rest2 with
       | '-' :: ds => decide (1 ≤ ds.length) && ds.all isDigitChar
       | _ => false)

/-- `Jira._validateIssueKey`: reject non-strings and the empty string
(both JS-falsy), trim and uppercase, then test the issue-key pattern.
Returns the normalized key. -/
def validateIssueKey : JsInput → Except JErr String
  | JsInput.nonString =>
    Except.error (JErr.validation "Issue key must be a non-empty string" "issueKey")
  | JsInput.jstr s =>
    if s = "" then
      Except.error (JErr.validation "Issue key must be a non-empty string" "issueKey")
    else
      let normalized := jsUpper (jsTrim s)
      if issueKeyPattern normalized then Except.ok normalized
      else Except.error (JErr.validation "Invalid issue key format" "issueKey")

/-- `Jira._extractProjectKey`: `issueKey.split('-')[0]`, the characters
before the first hyphen. -/
def extractProjectKey (issueKey : String) : String :=
  String.mk (issueKey.data.takeWhile (fun c => c ≠ '-'))

/-- A typed value of a field map sent to or read from the backend. -/
inductive FieldValue where
  | str (s : String)
  | num (n : Int)
  | boolean (b : Bool)
  | optionRef (id : String)
  | nullv
  deriving Repr, DecidableEq

/-- JS falsiness of a field-map entry, as tested by
`!transitionPayload.fields[fieldId]`: absent, `null`, the empty string,
`0` and `false` are falsy. -/
def fieldFalsy : Option FieldValue → Bool
  | none => true
  | some (FieldValue.str s) => s = ""
  | some (FieldValue.num n) => n = 0
  | some (FieldValue.boolean b) => b = false
  | some (FieldValue.optionRef _) => false
  | some FieldValue.nullv => true

/-- The issue fields fetched by `transitionIssue`
(`?fields=status,resolution,issuetype`). -/
structure IssueBasic where
  statusName : String
  resolutionName : Option String := none
  issueTypeName : String := ""
  deriving Repr, DecidableEq

/-- An available transition as returned by `GET /issue/{key}/transitions`:
`{ id, name, to: { name } }`. -/
structure AvailTransition where
  id : String
  name : String
  toName : String
  deriving Repr, DecidableEq

/-- Metadata of one field of a transition (`transition.fields[fieldId]`). -/
structure FieldInfo where
  name : String
  required : Bool
  deriving Repr, DecidableEq

/-- A transition as returned with `expand=transitions.fields`:
`{ id, name, fields? }` (`fields` may be absent). -/
structure DetTransition where
  id : String
  name : String
  fields : Option (List (String × FieldInfo)) := none
  deriving Repr, DecidableEq

/-- An option of a system field (`GET /resolution`, `GET /priority`, …):
`{ id, name }`. -/
structure FieldOption where
  id : String
  name : String
  deriving Repr, DecidableEq

/-- An issue of a JQL search result (only its key is consumed). -/
structure SearchIssue where
  key : String
  deriving Repr, DecidableEq

/-- The parsed workflow payload `data.values[0]` of the workflow search. -/
structure RawWorkflow where
  name : String
  statuses : List (String × StatusInfo)
  transitions : List WfTransition
  deriving Repr, DecidableEq

/-- The payload of `POST /issue/{key}/transitions`:
`{ transition: { id }, fields }`. -/
structure TransitionPayload where
  transitionId : String
  fields : List (String × FieldValue)
  deriving Repr, DecidableEq

/-- `JIRA_CONSTANTS.FIELD_MAPPINGS`. -/
def fieldMappings : List (String × String) :=
  [("resolution", "/resolution"), ("priority", "/priority"),
   ("issuetype", "/issuetype"), ("component", "/component"),
   ("version", "/version")]

/-- `JIRA_CONSTANTS.DEFAULT_EXCLUDE_STATES`. -/
def defaultExcludeStates : List String := ["Blocked", "Rejected"]

/-- One backend request, as recorded in the request log. -/
inductive Call where
  | getIssue (key : String)
  | getIssueField (key fieldId : String)
  | getProject (projectKey : String)
  | getScheme (projectId : String)
  | workflowSearch (workflowName : String)
  | getTransitions (key : String)
  | getTransitionDetails (key transitionId : String)
  | getFieldOptions (endpoint : String)
  | postTransition (key : String) (payload : TransitionPayload)
  | putFields (key : String) (fields : List (String × FieldValue))
  | search (jql : String)
  deriving Repr, DecidableEq

/-- The logical backend operations consumed by the client, one typed
oracle per endpoint shape; each returns the parsed payload or a thrown API
error. Oracles are pure functions, which models an external service whose
answers do not depend on the client's own call history. -/
structure Backend where
  issue : String → Except JErr IssueBasic
  projectId : String → Except JErr String
  schemeDefaultWorkflow : String → Except JErr (Option String)
  workflowSearch : String → Except JErr (Option RawWorkflow)
  transitions : String → Except JErr (List AvailTransition)
  transitionDetails : String → String → Except JErr (List DetTransition)
  fieldOptions : String → Except JErr (List FieldOption)
  postTransition : String → TransitionPayload → Except JErr Unit
  putFields : String → List (String × FieldValue) → Except JErr Unit
  searchIssues : String → Except JErr (List SearchIssue)
  issueField : String → String → Except JErr FieldValue

/-- Client state threaded through a run: the per-workflow state-machine
cache and the log of backend requests, in order. -/
structure ClientState where
  cache : List (String × StateMachine) := []
  calls : List Call := []

/-- A client computation: state in, typed result and state out. -/
def JiraM (α : Type) : Type := ClientState → Except JErr α × ClientState

def JiraM.pure {α : Type} (a : α) : JiraM α := fun s => (Except.ok a, s)

def JiraM.bind {α β : Type} (m : JiraM α) (f : α → JiraM β) : JiraM β := fun s =>
  match m s with
  | (Except.ok a, s') => f a s'
  | (Except.error e, s') => (Except.error e, s')

instance : Monad JiraM where
  pure := JiraM.pure
  bind := JiraM.bind

/-- `throw` of a typed error. -/
def JiraM.throw {α : Type} (e : JErr) : JiraM α := fun s => (Except.error e, s)

/-- `try … catch`: run the handler on failure, keeping the state effects of
the failed prefix (side effects persist in JS). -/
def JiraM.tryCatch {α : Type} (m : JiraM α) (h : JErr → JiraM α) : JiraM α := fun s =>
  match m s with
  | (Except.ok a, s') => (Except.ok a, s')
  | (Except.error e, s') => h e s'

/-- Record one backend request in the log and return the oracle's answer
(`this.request(...)` plus response parsing). -/
def callBackend {α : Type} (c : Call) (r : Except JErr α) : JiraM α := fun s =>
  (r, { s with calls := s.calls ++ [c] })

/-- Read the state-machine cache. -/
def getCache (workflowName : String) : JiraM (Option StateMachine) := fun s =>
  (Except.ok (lookupA s.cache workflowName), s)

/-- Write the state-machine cache. -/
def putCache (workflowName : String) (sm : StateMachine) : JiraM Unit := fun s =>
  (Except.ok (), { s with cache := setA s.cache workflowName sm })

/-- `getWorkflowStateMachine`'s construction of the in-memory machine from
the fetched workflow: build the status map, then index every transition by
source status, expanding global transitions (empty `from`) across all
known statuses. -/
def buildStateMachine (w : RawWorkflow) : StateMachine :=
  let states := w.statuses.foldl (fun acc p => setA acc p.1 p.2) []
  { name := w.name, states := states, transitions := w.transitions,
    transitionMap :=
      w.transitions.foldl
        (fun tmap t =>
          let fromStatuses :=
            if 0 < t.fromIds.length then t.fromIds else states.map Prod.fst
          fromStatuses.foldl
            (fun m fromStatus =>
              setA m fromStatus (setA ((lookupA m fromStatus).getD []) t.toId t))
            tmap)
        [] }

/-- `Jira.getWorkflowStateMachine(workflowName)`: validate, consult the
cache, otherwise fetch the workflow (error when the search reports no
match), build the machine and cache it. -/
def getWorkflowStateMachine (bk : Backend) (workflowName : String) :
    JiraM StateMachine := do
  if workflowName = "" then
    JiraM.throw (JErr.validation "Workflow name must be a non-empty string"
      "workflowName")
  else
    match ← getCache workflowName with
    | some sm => pure sm
    | none =>
      match ← callBackend (Call.workflowSearch workflowName)
          (bk.workflowSearch workflowName) with
      | none => JiraM.throw (JErr.workflow ("Workflow not found: " ++ workflowName))
      | some raw =>
        let sm := buildStateMachine raw
        putCache workflowName sm
        pure sm

/-- `Jira.getProjectWorkflowName(projectKey)`: validate, resolve the
project id, read the project's workflow scheme and return its default
workflow (a workflow error when no scheme is found). -/
def getProjectWorkflowName (bk : Backend) (projectKey : String) : JiraM String := do
  if projectKey = "" then
    JiraM.throw (JErr.validation "Project key must be a non-empty string"
      "projectKey")
  else
    let normalizedKey := jsUpper (jsTrim projectKey)
    let pid ← callBackend (Call.getProject normalizedKey) (bk.projectId normalizedKey)
    match ← callBackend (Call.getScheme pid) (bk.schemeDefaultWorkflow pid) with
    | none => JiraM.throw (JErr.workflow ("No workflow scheme found for project " ++
        normalizedKey))
    | some workflowName => pure workflowName

/-- `Jira.getTransitions(issueKey)`: validate the key, fetch the issue's
live transitions. -/
def getTransitions (bk : Backend) (issueKey : JsInput) :
    JiraM (List AvailTransition) := do
  match validateIssueKey issueKey with
  | Except.error e => JiraM.throw e
  | Except.ok validatedKey =>
    callBackend (Call.getTransitions validatedKey) (bk.transitions validatedKey)

/-- `Jira.getTransitionDetails(issueKey, transitionId)`: validate both
arguments, fetch the expanded transitions and select the requested one;
`none` models the `{}` returned when the transition is not available. -/
def getTransitionDetails (bk : Backend) (issueKey : JsInput)
    (transitionId : String) : JiraM (Option DetTransition) := do
  match validateIssueKey issueKey with
  | Except.error e => JiraM.throw e
  | Except.ok validatedKey =>
    if transitionId = "" then
      JiraM.throw (JErr.validation "Transition ID must be a non-empty string"
        "transitionId")
    else do
      let ts ← callBackend (Call.getTransitionDetails validatedKey transitionId)
        (bk.transitionDetails validatedKey transitionId)
      pure (ts.find? (fun t => t.id = transitionId))

/-- `Jira.getFieldOptions(fieldName)`: the whole body sits in a `try` whose
`catch` returns `[]`, so validation failures, unmapped field names and
backend errors all produce the empty list. -/
def getFieldOptions (bk : Backend) (fieldName : JsInput) :
    JiraM (List FieldOption) :=
  JiraM.tryCatch
    (match fieldName with
     | JsInput.nonString =>
       JiraM.throw (JErr.validation "Field name must be a non-empty string"
         "fieldName")
     | JsInput.jstr s =>
       if s = "" then
         JiraM.throw (JErr.validation "Field name must be a non-empty string"
           "fieldName")
       else
         match lookupA fieldMappings s with
         | none => pure []
         | some endpoint =>
           callBackend (Call.getFieldOptions endpoint) (bk.fieldOptions endpoint))
    (fun _ => pure [])

/-- `Jira._getDefaultFieldValue(issueKey, fieldId, fieldInfo)`: for a
resolution-like field prefer the option named `Done`, else the first
option; for a priority-like field prefer `Medium`, else the first option;
otherwise `null`. Any error is caught and becomes `null`. The issue key is
consumed only by log statements. -/
def getDefaultFieldValue (bk : Backend) (_issueKey fieldId : String)
    (fieldInfo : FieldInfo) : JiraM (Option FieldValue) :=
  JiraM.tryCatch
    (do
      let r1 ←
        if fieldId = "resolution" ∨ fieldInfo.name = "Resolution" then do
          let resolutions ← getFieldOptions bk (JsInput.jstr "resolution")
          let resolution :=
            match resolutions.find? (fun r => r.name = "Done") with
            | some r => some r
            | none => resolutions.head?
          pure (resolution.map (fun r => FieldValue.optionRef r.id))
        else pure none
      match r1 with
      | some v => pure (some v)
      | none => do
        let r2 ←
          if fieldId = "priority" ∨ fieldInfo.name = "Priority" then do
            let priorities ← getFieldOptions bk (JsInput.jstr "priority")
            let priority :=
              match priorities.find? (fun p => p.name = "Medium") with
              | some p => some p
              | none => priorities.head?
            pure (priority.map (fun p => FieldValue.optionRef p.id))
          else pure none
        match r2 with
        | some v => pure (some v)
        | none => pure none)
    (fun _ => JiraM.pure none)

/-- The required-field loop of `transitionIssue`
(`for (const [fieldId, fieldInfo] of Object.entries(transitionDetails.fields))`):
for every required field whose current payload value is JS-falsy, try to
auto-populate a default; fields without a default accumulate in
`missingFields`. -/
def populateRequired (bk : Backend) (validatedKey : String) :
    List (String × FieldInfo) → List (String × FieldValue) →
    List (String × FieldInfo) →
    JiraM (List (String × FieldValue) × List (String × FieldInfo))
  | [], payload, missing => JiraM.pure (payload, missing)
  | (fieldId, fieldInfo) :: rest, payload, missing =>
    if fieldInfo.required then
      if fieldFalsy (lookupA payload fieldId) then do
        match ← getDefaultFieldValue bk validatedKey fieldId fieldInfo with
        | some v =>
          populateRequired bk validatedKey rest (setA payload fieldId v) missing
        | none =>
          populateRequired bk validatedKey rest payload
            (missing ++ [(fieldId, fieldInfo)])
      else populateRequired bk validatedKey rest payload missing
    else populateRequired bk validatedKey rest payload missing

/-- One iteration of the path-execution loop of `transitionIssue`:
re-fetch the live transitions, match the planned step by id or by
(destination name, transition name), build the payload (caller fields only
on the last step), auto-populate required fields, fail on unpopulatable
required fields, and submit the transition. The fixed post-step delay has
no observable effect in this model. -/
def executeStep (bk : Backend) (validatedKey : String)
    (fields : List (String × FieldValue)) (isLast : Bool) (tr : Step) :
    JiraM Unit := do
  let availableTransitions ← getTransitions bk (JsInput.jstr validatedKey)
  match availableTransitions.find?
      (fun t => t.id = tr.id ∨ (t.toName = tr.toName ∧ t.name = tr.name)) with
  | none =>
    JiraM.throw (JErr.transition
      ("Transition \"" ++ tr.name ++ "\" to \"" ++ tr.toName ++ "\" not available")
      validatedKey)
  | some actualTransition => do
    let payloadFields : List (String × FieldValue) :=
      if isLast ∧ 0 < fields.length then fields else []
    let details ← getTransitionDetails bk (JsInput.jstr validatedKey)
      actualTransition.id
    let detFields : Option (List (String × FieldInfo)) :=
      match details with
      | none => none
      | some dt => dt.fields
    let filled ←
      match detFields with
      | none => JiraM.pure (payloadFields, ([] : List (String × FieldInfo)))
      | some fl => populateRequired bk validatedKey fl payloadFields []
    if 0 < filled.2.length then
      JiraM.throw (JErr.transition "Required fields cannot be populated" validatedKey)
    else
      callBackend
        (Call.postTransition validatedKey ⟨actualTransition.id, filled.1⟩)
        (bk.postTransition validatedKey ⟨actualTransition.id, filled.1⟩)

/-- The `for (let i = 0; i < shortestPath.length; i++)` loop of
`transitionIssue`; `isLast` is `i === shortestPath.length - 1`. -/
def executePath (bk : Backend) (validatedKey : String)
    (fields : List (String × FieldValue)) : List Step → JiraM Unit
  | [] => JiraM.pure ()
  | tr :: rest => do
    executeStep bk validatedKey fields rest.isEmpty tr
    executePath bk validatedKey fields rest

/-- `Jira.transitionIssue(issueKey, targetStatusName, excludeStates,
fields)`: validate inputs, fetch the live status (idempotent no-op when
already at the target), resolve the project's workflow and its graph,
compute the shortest path (throwing a transition error when none exists),
and execute the path step by step. -/
def transitionIssue (bk : Backend) (issueKey : JsInput)
    (targetStatusName : String)
    (excludeStates : List String := defaultExcludeStates)
    (fields : List (String × FieldValue) := []) : JiraM Bool := do
  match validateIssueKey issueKey with
  | Except.error e => JiraM.throw e
  | Except.ok validatedKey =>
    if targetStatusName = "" then
      JiraM.throw (JErr.validation "Target status name must be a non-empty string"
        "targetStatusName")
    else do
      let issueData ← callBackend (Call.getIssue validatedKey)
        (bk.issue validatedKey)
      let currentStatusName := issueData.statusName
      if currentStatusName = targetStatusName then
        pure true
      else do
        let projectKey := extractProjectKey validatedKey
        let workflowName ← getProjectWorkflowName bk projectKey
        let sm ← getWorkflowStateMachine bk workflowName
        match findShortestTransitionPath sm currentStatusName targetStatusName
            excludeStates with
        | Except.error e => JiraM.throw e
        | Except.ok none =>
          JiraM.throw (JErr.transition
            ("No transition path found from \"" ++ currentStatusName ++
              "\" to \"" ++ targetStatusName ++ "\"") validatedKey)
        | Except.ok (some shortestPath) => do
          executePath bk validatedKey fields shortestPath
          pure true

/-- `Jira.updateCustomField(issueKey, customFieldId, value)`. -/
def updateCustomField (bk : Backend) (issueKey : JsInput)
    (customFieldId : String) (value : FieldValue) : JiraM Bool := do
  match validateIssueKey issueKey with
  | Except.error e => JiraM.throw e
  | Except.ok validatedKey =>
    if customFieldId = "" then
      JiraM.throw (JErr.validation "Custom field ID must be a non-empty string"
        "customFieldId")
    else do
      callBackend (Call.putFields validatedKey [(customFieldId, value)])
        (bk.putFields validatedKey [(customFieldId, value)])
      pure true

/-- `Jira.updateCustomFields(issueKey, customFields)`: a no-op success on
an empty field map, a single field-overwrite `PUT` otherwise. -/
def updateCustomFields (bk : Backend) (issueKey : JsInput)
    (customFields : List (String × FieldValue)) : JiraM Bool := do
  match validateIssueKey issueKey with
  | Except.error e => JiraM.throw e
  | Except.ok validatedKey =>
    if customFields.length = 0 then
      pure true
    else do
      callBackend (Call.putFields validatedKey customFields)
        (bk.putFields validatedKey customFields)
      pure true

/-- `Jira.getCustomField(issueKey, customFieldId)`. -/
def getCustomField (bk : Backend) (issueKey : JsInput)
    (customFieldId : String) : JiraM FieldValue := do
  match validateIssueKey issueKey with
  | Except.error e => JiraM.throw e
  | Except.ok validatedKey =>
    if customFieldId = "" then
      JiraM.throw (JErr.validation "Custom field ID must be a non-empty string"
        "customFieldId")
    else
      callBackend (Call.getIssueField validatedKey customFieldId)
        (bk.issueField validatedKey customFieldId)

/-- `Jira.findByStatus(status)`: JQL search for issues in a status. -/
def findByStatus (bk : Backend) (status : String) : JiraM (List SearchIssue) := do
  if status = "" then
    JiraM.throw (JErr.validation "Status must be a non-empty string" "status")
  else
    let jql := "status = \"" ++ status ++ "\""
    callBackend (Call.search jql) (bk.searchIssues jql)

/-- `Promise.allSettled` over the per-issue `transitionIssue` promises,
modelled as settling each key in order: each key's outcome is recorded
independently and a rejection never aborts the remaining keys. -/
def settleAll (bk : Backend) (targetStatus : String)
    (excludeStates : List String) (fields : List (String × FieldValue)) :
    List String → JiraM (List (Except JErr Bool))
  | [] => JiraM.pure []
  | k :: rest => do
    let r ← JiraM.tryCatch
      (do
        let b ← transitionIssue bk (JsInput.jstr k) targetStatus excludeStates fields
        JiraM.pure (Except.ok b))
      (fun e => JiraM.pure (Except.error e))
    let rs ← settleAll bk targetStatus excludeStates fields rest
    JiraM.pure (r :: rs)

/-- The summary object returned by `updateIssuesFromCommitHistory`. -/
structure BulkResult where
  successful : Nat
  failed : Nat
  errors : List String
  deriving Repr, DecidableEq

/-- The human-readable message attached to an error (`error.message`). -/
def JErr.message : JErr → String
  | JErr.validation m _ => m
  | JErr.api c e => "Jira API error: " ++ toString c ++ " " ++ e
  | JErr.workflow m => m
  | JErr.transition m _ => m

/-- `Jira.updateIssuesFromCommitHistory(issueKeys, targetStatus,
excludeStates, fields)`: empty input is a zero summary; otherwise all
transitions are dispatched and settled, and the fulfilled/rejected counts
and error messages are reported. -/
def updateIssuesFromCommitHistory (bk : Backend) (issueKeys : List String)
    (targetStatus : String)
    (excludeStates : List String := defaultExcludeStates)
    (fields : List (String × FieldValue) := []) : JiraM BulkResult := do
  if issueKeys.length = 0 then
    JiraM.pure ⟨0, 0, []⟩
  else do
    let results ← settleAll bk targetStatus excludeStates fields issueKeys
    let successful := (results.filter (fun r => r.isOk)).length
    let failed := (results.filter (fun r => ¬ r.isOk)).length
    let errors := results.filterMap
      (fun r => match r with
        | Except.error e => some e.message
        | Except.ok _ => none)
    JiraM.pure ⟨successful, failed, errors⟩

/-- `Jira.updateByStatus(currentStatus, newStatus, fields)`: search by
status, settle one transition per found issue, and return the found issues
(failures are only counted and logged). -/
def updateByStatus (bk : Backend) (currentStatus newStatus : String)
    (fields : List (String × FieldValue) := []) : JiraM (List SearchIssue) := do
  let issues ← findByStatus bk currentStatus
  let _ ← settleAll bk newStatus defaultExcludeStates fields
    (issues.map SearchIssue.key)
  JiraM.pure issues

/-- The `for (const issue of issues)` loop of `updateByPR`: sequential
awaited transitions with no per-issue catch, so the first rejection
propagates and the remaining issues are never attempted. -/
def updateByPRLoop (bk : Backend) (newStatus : String)
    (fields : List (String × FieldValue)) : List SearchIssue → JiraM Unit
  | [] => JiraM.pure ()
  | issue :: rest => do
    let _ ← transitionIssue bk (JsInput.jstr issue.key) newStatus
      defaultExcludeStates fields
    updateByPRLoop bk newStatus fields rest

/-- `Jira.updateByPR(prUrl, newStatus, fields)`: text-search for issues
mentioning the PR URL, then transition them one by one. -/
def updateByPR (bk : Backend) (prUrl : String) (newStatus : String)
    (fields : List (String × FieldValue) := []) : JiraM Nat := do
  if prUrl = "" then
    JiraM.throw (JErr.validation "PR URL must be a non-empty string" "prUrl")
  else do
    let jql := "text ~ \"" ++ prUrl ++ "\""
    let issues ← callBackend (Call.search jql) (bk.searchIssues jql)
    updateByPRLoop bk newStatus fields issues
    JiraM.pure issues.length

/-- A backend every one of whose oracles fails, used by witnesses. -/
def bkFail : Backend :=
  { issue := fun _ => Except.error (JErr.api 500 "/issue"),
    projectId := fun _ => Except.error (JErr.api 500 "/project"),
    schemeDefaultWorkflow := fun _ => Except.error (JErr.api 500 "/workflowscheme"),
    workflowSearch := fun _ => Except.error (JErr.api 500 "/workflow/search"),
    transitions := fun _ => Except.error (JErr.api 500 "/transitions"),
    transitionDetails := fun _ _ => Except.error (JErr.api 500 "/transitions"),
    fieldOptions := fun endpoint => Except.error (JErr.api 500 endpoint),
    postTransition := fun _ _ => Except.error (JErr.api 500 "/transitions"),
    putFields := fun _ _ => Except.error (JErr.api 500 "/issue"),
    searchIssues := fun _ => Except.error (JErr.api 500 "/search"),
    issueField := fun _ _ => Except.error (JErr.api 500 "/issue") }

/-! ### Run characterizations (proof devices, not part of the source) -/

/-- `true` exactly on transition-submission requests. -/
def isPostCall : Call → Bool
  | Call.postTransition _ _ => true
  | _ => false

/-- The value `getFieldOptions` computes, as a pure function of the
backend and the field name. -/
def fieldOptionsVal (bk : Backend) : JsInput → List FieldOption
  | JsInput.nonString => []
  | JsInput.jstr s =>
    if s = "" then []
    else
      match lookupA fieldMappings s with
      | none => []
      | some endpoint =>
        match bk.fieldOptions endpoint with
        | Except.ok l => l
        | Except.error _ => []

/-- The requests `getFieldOptions` issues, as a pure function of the
backend and the field name. -/
def fieldOptionsCalls : JsInput → List Call
  | JsInput.nonString => []
  | JsInput.jstr s =>
    if s = "" then []
    else
      match lookupA fieldMappings s with
      | none => []
      | some endpoint => [Call.getFieldOptions endpoint]

/-- The value `_getDefaultFieldValue` computes, as a pure function of the
backend, the field id and the field metadata. -/
def defaultValueOf (bk : Backend) (fieldId : String) (info : FieldInfo) :
    Option FieldValue :=
  let r1 :=
    if fieldId = "resolution" ∨ info.name = "Resolution" then
      let resolutions := fieldOptionsVal bk (JsInput.jstr "resolution")
      ((match resolutions.find? (fun r => r.name = "Done") with
        | some r => some r
        | none => resolutions.head? : Option FieldOption)).map
        (fun r => FieldValue.optionRef r.id)
    else none
  match r1 with
  | some v => some v
  | none =>
    if fieldId = "priority" ∨ info.name = "Priority" then
      let priorities := fieldOptionsVal bk (JsInput.jstr "priority")
      ((match priorities.find? (fun p => p.name = "Medium") with
        | some p => some p
        | none => priorities.head? : Option FieldOption)).map
        (fun p => FieldValue.optionRef p.id)
    else none

/-- The transition payload carried by a log entry, when the entry is a
transition POST. -/
def postPayloadOf : Call → Option TransitionPayload
  | Call.postTransition _ p => some p
  | _ => none

/-- The transition POST payloads of a request log, in order. -/
def postsOf (l : List Call) : List TransitionPayload :=
  l.filterMap postPayloadOf

/-- Every entry of the payload is an auto-populated default: it names a
required field of the details fetched for this payload's transition, and
its value is the default `_getDefaultFieldValue` computes for it. -/
def autoOnly (bk : Backend) (key : String) (p : TransitionPayload) : Prop :=
  ∀ fid v, lookupA p.fields fid = some v →
    ∃ detList dt fl info,
      bk.transitionDetails key p.transitionId = Except.ok detList ∧
      detList.find? (fun t => t.id = p.transitionId) = some dt ∧
      dt.fields = some fl ∧ (fid, info) ∈ fl ∧ info.required = true ∧
      defaultValueOf bk fid info = some v

/-- A three-status, two-transition workflow used by witnesses. -/
def raw8 : RawWorkflow :=
  { name := "WF",
    statuses := [("1", { name := "A" }), ("2", { name := "B" }),
      ("3", { name := "C" })],
    transitions :=
      [{ id := "t1", name := "go1", fromIds := ["1"], toId := "2" },
       { id := "t2", name := "go2", fromIds := ["2"], toId := "3" }] }

/-- A fully healthy backend over the `raw8` workflow, used by witnesses. -/
def bk8 : Backend :=
  { issue := fun _ => Except.ok { statusName := "A" },
    projectId := fun _ => Except.ok "P1",
    schemeDefaultWorkflow := fun _ => Except.ok (some "WF"),
    workflowSearch := fun _ => Except.ok (some raw8),
    transitions := fun _ => Except.ok
      [⟨"t1", "go1", "B"⟩, ⟨"t2", "go2", "C"⟩],
    transitionDetails := fun _ _ => Except.ok
      [⟨"t1", "go1", none⟩, ⟨"t2", "go2", none⟩],
    fieldOptions := fun _ => Except.ok [],
    postTransition := fun _ _ => Except.ok (),
    putFields := fun _ _ => Except.ok (),
    searchIssues := fun _ => Except.ok [],
    issueField := fun _ _ => Except.ok FieldValue.nullv }

/-- The request log of the two-step `bk8` transition run of the witnesses. -/
def calls8 : List Call :=
  [Call.getIssue "DEX-1", Call.getProject "DEX", Call.getScheme "P1",
   Call.workflowSearch "WF", Call.getTransitions "DEX-1",
   Call.getTransitionDetails "DEX-1" "t1",
   Call.postTransition "DEX-1" ⟨"t1", []⟩,
   Call.getTransitions "DEX-1", Call.getTransitionDetails "DEX-1" "t2",
   Call.postTransition "DEX-1" ⟨"t2", [("f", FieldValue.str "x")]⟩]

/-- A backend whose text search finds two issues and whose issue fetch
fails exactly for `AB-1`, used to exhibit the abort behaviour of
`updateByPR`. -/
def bkPR : Backend :=
  { issue := fun k =>
      if k = "AB-1" then Except.error (JErr.api 500 "/issue")
      else Except.ok { statusName := "X" },
    projectId := fun _ => Except.error (JErr.api 500 "/project"),
    schemeDefaultWorkflow := fun _ => Except.error (JErr.api 500 "/scheme"),
    workflowSearch := fun _ => Except.error (JErr.api 500 "/workflow"),
    transitions := fun _ => Except.ok [],
    transitionDetails := fun _ _ => Except.ok [],
    fieldOptions := fun _ => Except.ok [],
    postTransition := fun _ _ => Except.ok (),
    putFields := fun _ _ => Except.ok (),
    searchIssues := fun _ => Except.ok [⟨"AB-1"⟩, ⟨"AB-2"⟩],
    issueField := fun _ _ => Except.ok FieldValue.nullv }

/-! ### Walks in the transition graph -/

/-- A walk of length `n` from `v` to `u` along transition-map edges. -/
inductive Walk (tm : List (String × List (String × WfTransition))) :
    String → String → Nat → Prop
  | nil (v : String) : Walk tm v v 0
  | cons {v w u : String} {n : Nat} (l : List (String × WfTransition))
      (t : WfTransition) (hl : lookupA tm v = some l) (ht : (w, t) ∈ l)
      (hw : Walk tm w u n) : Walk tm v u (n + 1)

/-- The queue invariant of the BFS optimality argument. -/
structure BfsInv (tm : List (String × List (String × WfTransition)))
    (src toId : String) (P : List String)
    (queue : List BfsEntry) (visited : List String) : Prop where
  srcVisited : src ∈ visited
  targetNotVisited : toId ∉ visited
  cover : ∀ v, v ∈ visited ↔ v ∈ P ∨ v ∈ queue.map BfsEntry.statusId
  nodesNodup : (queue.map BfsEntry.statusId).Nodup
  closedP : ∀ u ∈ P, ∀ l, lookupA tm u = some l → ∀ wt ∈ l, wt.1 ∈ visited
  sorted : queue.Pairwise (fun a b => a.path.length ≤ b.path.length)
  bounded : ∀ h e, queue.head? = some h → e ∈ queue →
    e.path.length ≤ h.path.length + 1
  opt : ∀ e ∈ queue, ∀ n, Walk tm src e.statusId n → e.path.length ≤ n

/-! ### Concrete machines used by witnesses and counterexamples -/

/-- A three-status machine with a two-step route `A → B → C` and a direct
edge `A → C`. -/
def smWitness : StateMachine :=
  { states := [("1", { name := "A" }), ("2", { name := "B" }), ("3", { name := "C" })],
    transitionMap :=
      [("1", [("2", { id := "t12", name := "Start" }), ("3", { id := "t13", name := "Jump" })]),
       ("2", [("3", { id := "t23", name := "Finish" })])] }

/-- The step returned by the BFS on `smWitness` for `A → C` avoiding `B`. -/
def stepAC : Step :=
  { id := "t13", name := "Jump", fromId := "1", toId := "3",
    fromName := "A", toName := "C" }

/-- A machine whose only status has the empty string as its id, which is
JS-falsy. -/
def smNoId : StateMachine :=
  { states := [("", { name := "A" })], transitionMap := [] }

/-- A machine for the self-transition witness. -/
def smSelf : StateMachine :=
  { states := [("7", { name := "A" })], transitionMap := [] }

lemma Walk.snoc {tm : List (String × List (String × WfTransition))}
    {x y z : String} {m : Nat} {l : List (String × WfTransition)} {t : WfTransition}
    (hw : Walk tm x y m) (hl : lookupA tm y = some l) (ht : (z, t) ∈ l) :
    Walk tm x z (m + 1) := by
  induction hw with
  | nil v => exact Walk.cons l t hl ht (Walk.nil z)
  | cons l' t' hl' ht' hw' ih => exact Walk.cons l' t' hl' ht' (ih hl)

/-! ### Lemmas about name resolution and the exclusion set -/

lemma resolveStatusId_aux_sound (nm : String) :
    ∀ (states : List (String × StatusInfo)) (acc : Option String) (i : String),
      states.foldl (fun acc p => if p.2.name = nm then some p.1 else acc) acc = some i →
      (∃ st, (i, st) ∈ states ∧ st.name = nm) ∨ acc = some i := by
  intro states
  induction states with
  | nil => intro acc i h; exact Or.inr h
  | cons p rest ih =>
    intro acc i h
    simp only [List.foldl_cons] at h
    rcases ih _ _ h with ⟨st, hmem, hnm⟩ | hacc
    · exact Or.inl ⟨st, List.mem_cons_of_mem _ hmem, hnm⟩
    · by_cases hp : p.2.name = nm
      · rw [if_pos hp] at hacc
        injection hacc with h1
        subst h1
        exact Or.inl ⟨p.2, by simp, hp⟩
      · rw [if_neg hp] at hacc
        exact Or.inr hacc

lemma resolveStatusId_sound {states : List (String × StatusInfo)} {nm i : String}
    (h : resolveStatusId states nm = some i) :
    ∃ st, (i, st) ∈ states ∧ st.name = nm := by
  rcases resolveStatusId_aux_sound nm states none i h with hs | hacc
  · exact hs
  · cases hacc

lemma resolveStatusId_aux_some (nm : String) :
    ∀ (states : List (String × StatusInfo)) (i : String),
      states.foldl (fun acc p => if p.2.name = nm then some p.1 else acc) (some i) ≠ none := by
  intro states
  induction states with
  | nil => intro i h; cases h
  | cons p rest ih =>
    intro i
    simp only [List.foldl_cons]
    by_cases hp : p.2.name = nm
    · simp only [hp, if_pos rfl]; exact ih p.1
    · simp only [if_neg hp]; exact ih i

lemma resolveStatusId_isSome {states : List (String × StatusInfo)} {nm : String}
    (h : ∃ q ∈ states, q.2.name = nm) : ∃ i, resolveStatusId states nm = some i := by
  unfold resolveStatusId
  induction states with
  | nil => rcases h with ⟨q, hq, _⟩; cases hq
  | cons p rest ih =>
    simp only [List.foldl_cons]
    by_cases hp : p.2.name = nm
    · simp only [hp, if_pos rfl]
      rcases Option.ne_none_iff_exists.mp (resolveStatusId_aux_some nm rest p.1) with ⟨i, hi⟩
      exact ⟨i, hi.symm⟩
    · simp only [if_neg hp]
      rcases h with ⟨q, hq, hnm⟩
      rcases List.mem_cons.mp hq with rfl | hq'
      · exact absurd hnm hp
      · exact ih ⟨q, hq', hnm⟩

lemma collectExcludedIds_aux_mono (excludeStates : List String) :
    ∀ (states : List (String × StatusInfo)) (acc : List String) (i : String),
      i ∈ acc →
      i ∈ states.foldl
        (fun acc p => if p.2.name ∈ excludeStates then acc ++ [p.1] else acc) acc := by
  intro states
  induction states with
  | nil => intro acc i h; exact h
  | cons p rest ih =>
    intro acc i h
    simp only [List.foldl_cons]
    by_cases hp : p.2.name ∈ excludeStates
    · simp only [if_pos hp]; exact ih _ _ (List.mem_append_left _ h)
    · simp only [if_neg hp]; exact ih _ _ h

lemma collectExcludedIds_aux_complete (excludeStates : List String) :
    ∀ (states : List (String × StatusInfo)) (acc : List String) (i : String)
      (st : StatusInfo), (i, st) ∈ states → st.name ∈ excludeStates →
      i ∈ states.foldl
        (fun acc p => if p.2.name ∈ excludeStates then acc ++ [p.1] else acc) acc := by
  intro states
  induction states with
  | nil => intro acc i st h; cases h
  | cons p rest ih =>
    intro acc i st hmem hex
    simp only [List.foldl_cons]
    rcases List.mem_cons.mp hmem with heq | hmem'
    · cases heq
      simp only [hex, if_pos]
      exact collectExcludedIds_aux_mono _ _ _ _ (by simp)
    · by_cases hp : p.2.name ∈ excludeStates
      · simp only [if_pos hp]; exact ih _ _ _ hmem' hex
      · simp only [if_neg hp]; exact ih _ _ _ hmem' hex

lemma collectExcludedIds_complete {states : List (String × StatusInfo)}
    {excludeStates : List String} {i : String} {st : StatusInfo}
    (hmem : (i, st) ∈ states) (hex : st.name ∈ excludeStates) :
    i ∈ collectExcludedIds states excludeStates :=
  collectExcludedIds_aux_complete excludeStates states [] i st hmem hex

lemma collectExcludedIds_nil (states : List (String × StatusInfo)) :
    collectExcludedIds states [] = [] := by
  unfold collectExcludedIds
  induction states with
  | nil => rfl
  | cons p rest ih => simp

/-! ### Path steps avoid excluded destinations (towards C1) -/

lemma bfsScan_inl_steps {sm : StateMachine} {toId : String} {excludeIds : List String}
    {cur : String} {path : List Step} (hto : toId ∉ excludeIds)
    (hpath : ∀ s ∈ path, s.toId ∉ excludeIds) :
    ∀ (ns : List (String × WfTransition)) (visited : List String)
      (queue : List BfsEntry) (p : List Step),
      bfsScan sm toId excludeIds cur path ns visited queue = Sum.inl p →
      ∀ s ∈ p, s.toId ∉ excludeIds := by
  intro ns
  induction ns with
  | nil => intro visited queue p h; cases h
  | cons nt rest ih =>
    intro visited queue p h
    rw [bfsScan] at h
    split at h
    · exact ih _ _ _ h
    · split at h
      · rename_i hne
        injection h with hp
        subst hp
        intro s hs
        rcases List.mem_append.mp hs with hs' | hs'
        · exact hpath s hs'
        · rcases List.mem_singleton.mp hs' with rfl
          simp only [mkStep]
          rw [hne]
          exact hto
      · split at h
        · exact ih _ _ _ h
        · exact ih _ _ _ h

lemma bfsScan_inr_steps {sm : StateMachine} {toId : String} {excludeIds : List String}
    {cur : String} {path : List Step}
    (hpath : ∀ s ∈ path, s.toId ∉ excludeIds) :
    ∀ (ns : List (String × WfTransition)) (visited : List String)
      (queue : List BfsEntry) (v' : List String) (q' : List BfsEntry),
      bfsScan sm toId excludeIds cur path ns visited queue = Sum.inr (v', q') →
      (∀ e ∈ queue, ∀ s ∈ e.path, s.toId ∉ excludeIds) →
      ∀ e ∈ q', ∀ s ∈ e.path, s.toId ∉ excludeIds := by
  intro ns
  induction ns with
  | nil =>
    intro visited queue v' q' h hq
    rw [bfsScan] at h
    injection h with h1
    injection h1 with h1 h2
    subst h2
    exact hq
  | cons nt rest ih =>
    intro visited queue v' q' h hq
    rw [bfsScan] at h
    split at h
    · exact ih _ _ _ _ h hq
    · split at h
      · cases h
      · split at h
        · exact ih _ _ _ _ h hq
        · rename_i hskip hne hvis
          refine ih _ _ _ _ h ?_
          intro e he s hs
          rcases List.mem_append.mp he with he' | he'
          · exact hq e he' s hs
          · rcases List.mem_singleton.mp he' with rfl
            simp only at hs
            rcases List.mem_append.mp hs with hs' | hs'
            · exact hpath s hs'
            · rcases List.mem_singleton.mp hs' with rfl
              simp only [mkStep]
              intro hmem
              exact hskip ⟨hmem, hne⟩

/-! ### BFS returns a shortest path (towards C2)

The classical queue-based BFS argument, for the exclusion-free search used
when `excludeStates = []`: with `P` the ghost set of already-processed
statuses, the queue always holds exactly the visited-but-unprocessed
statuses, its path lengths are nondecreasing and spread over at most two
consecutive values, every neighbour of a processed status is visited, and
every queue entry's path is no longer than any walk from the source to that
entry's status. -/

lemma head_min {queue : List BfsEntry}
    (hs : queue.Pairwise (fun a b => a.path.length ≤ b.path.length)) :
    ∀ h e, queue.head? = some h → e ∈ queue → h.path.length ≤ e.path.length := by
  intro h e hh he
  match queue with
  | [] => cases hh
  | h' :: rest =>
    injection hh with hh1
    subst hh1
    rcases List.mem_cons.mp he with rfl | he'
    · exact Nat.le_refl _
    · exact (List.pairwise_cons.mp hs).1 e he'

/-- Frontier property: any walk from a visited status to an unvisited one
crosses a queue entry whose recorded path is short enough. -/
lemma bfs_frontier {tm : List (String × List (String × WfTransition))}
    {src toId : String} {P : List String} {queue : List BfsEntry}
    {visited : List String}
    (inv : BfsInv tm src toId P queue visited) :
    ∀ {x u : String} {n : Nat}, Walk tm x u n → x ∈ visited → u ∉ visited →
      ∀ m, Walk tm src x m → ∃ e ∈ queue, e.path.length + 1 ≤ m + n := by
  intro x u n hw
  induction hw with
  | nil v => intro hx hu; exact absurd hx hu
  | cons l t hl ht hw' ih =>
    rename_i v w u' n'
    intro hx hu m hsrc
    by_cases hwv : w ∈ visited
    · rcases ih hwv hu (m + 1) (hsrc.snoc hl ht) with ⟨e, he, hlen⟩
      exact ⟨e, he, by omega⟩
    · by_cases hxP : v ∈ P
      · exact absurd (inv.closedP v hxP l hl (w, t) ht) hwv
      · rcases (inv.cover v).mp hx with hP | hq
        · exact absurd hP hxP
        · rcases List.mem_map.mp hq with ⟨e, he, hid⟩
          refine ⟨e, he, ?_⟩
          have := inv.opt e he m (hid ▸ hsrc)
          omega

/-- When the BFS loop is entered with the invariant, any walk from the
source to the target is at least one longer than the head entry's path. -/
lemma bfs_head_bound {tm : List (String × List (String × WfTransition))}
    {src toId : String} {P : List String} {h : BfsEntry} {rest : List BfsEntry}
    {visited : List String}
    (inv : BfsInv tm src toId P (h :: rest) visited) :
    ∀ {u : String}, u ∉ visited → ∀ n, Walk tm src u n →
      h.path.length + 1 ≤ n := by
  intro u hu n hw
  rcases bfs_frontier inv hw inv.srcVisited hu 0 (Walk.nil src) with ⟨e, he, hlen⟩
  have hmin := head_min inv.sorted h e rfl he
  omega

lemma bfsScan_inl_len {sm : StateMachine} {toId : String} {cur : String}
    {path : List Step} :
    ∀ (ns : List (String × WfTransition)) (visited : List String)
      (queue : List BfsEntry) (p : List Step),
      bfsScan sm toId [] cur path ns visited queue = Sum.inl p →
      p.length = path.length + 1 := by
  intro ns
  induction ns with
  | nil => intro visited queue p h; cases h
  | cons nt rest ih =>
    intro visited queue p h
    rw [bfsScan] at h
    split at h
    · exact ih _ _ _ h
    · split at h
      · injection h with hp
        subst hp
        simp
      · split at h
        · exact ih _ _ _ h
        · exact ih _ _ _ h

/-- Specification of the neighbour scan when it does not find the target:
the queue and visited list are extended by matching fresh entries, all one
step longer than the head's path, none of them the target, and every
scanned neighbour ends up visited. -/
lemma bfsScan_inr_spec {sm : StateMachine} {toId : String} {cur : String}
    {path : List Step} :
    ∀ (ns : List (String × WfTransition)) (visited : List String)
      (queue : List BfsEntry) (v' : List String) (q' : List BfsEntry),
      bfsScan sm toId [] cur path ns visited queue = Sum.inr (v', q') →
      ∃ fresh : List BfsEntry,
        q' = queue ++ fresh ∧
        v' = visited ++ fresh.map BfsEntry.statusId ∧
        (∀ e ∈ fresh, e.statusId ∉ visited ∧ e.statusId ≠ toId ∧
          e.path.length = path.length + 1) ∧
        (fresh.map BfsEntry.statusId).Nodup ∧
        (∀ wt ∈ ns, wt.1 ≠ toId ∧ wt.1 ∈ v') := by
  intro ns
  induction ns with
  | nil =>
    intro visited queue v' q' h
    rw [bfsScan] at h
    injection h with h1
    injection h1 with h1 h2
    subst h1; subst h2
    exact ⟨[], by simp, by simp, by simp, by simp, by simp⟩
  | cons nt rest ih =>
    intro visited queue v' q' h
    rw [bfsScan] at h
    split at h
    · rename_i hskip
      exact absurd hskip.1 (List.not_mem_nil _)
    · split at h
      · cases h
      · split at h
        · rename_i hskip hne hvis
          rcases ih _ _ _ _ h with ⟨fresh, hq, hv, hfr, hnd, hns⟩
          refine ⟨fresh, hq, hv, hfr, hnd, ?_⟩
          intro wt hwt
          rcases List.mem_cons.mp hwt with rfl | hwt'
          · exact ⟨hne, by rw [hv]; exact List.mem_append_left _ hvis⟩
          · exact hns wt hwt'
        · rename_i hskip hne hvis
          rcases ih _ _ _ _ h with ⟨fresh, hq, hv, hfr, hnd, hns⟩
          refine ⟨⟨nt.1, path ++ [mkStep sm nt.2 cur nt.1]⟩ :: fresh, ?_, ?_, ?_, ?_, ?_⟩
          · rw [hq]; simp
          · rw [hv]; simp
          · intro e he
            rcases List.mem_cons.mp he with rfl | he'
            · exact ⟨hvis, hne, by simp⟩
            · rcases hfr e he' with ⟨h1, h2, h3⟩
              exact ⟨fun hc => h1 (List.mem_append_left _ hc), h2, h3⟩
          · simp only [List.map_cons, List.nodup_cons]
            constructor
            · intro hc
              rcases List.mem_map.mp hc with ⟨e, he, hid⟩
              exact (hfr e he).1 (hid ▸ List.mem_append_right _ (by simp))
            · exact hnd
          · intro wt hwt
            rcases List.mem_cons.mp hwt with rfl | hwt'
            · refine ⟨hne, ?_⟩
              rw [hv]; simp
            · exact hns wt hwt'

lemma pairwise_le_of_const {l : List BfsEntry} {c : Nat}
    (h : ∀ a ∈ l, a.path.length = c) :
    l.Pairwise (fun a b => a.path.length ≤ b.path.length) := by
  induction l with
  | nil => exact List.Pairwise.nil
  | cons a rest ih =>
    refine List.pairwise_cons.mpr ⟨?_, ih fun b hb => h b (List.mem_cons_of_mem _ hb)⟩
    intro b hb
    rw [h a (List.mem_cons_self a rest), h b (List.mem_cons_of_mem _ hb)]

/-- Main BFS optimality lemma: from any state satisfying the invariant, a
path returned by the exclusion-free BFS loop is no longer than any walk
from the source to the target. -/
lemma bfsLoop_opt {sm : StateMachine} {src toId : String} :
    ∀ (fuel : Nat) (queue : List BfsEntry) (visited P : List String) (p : List Step),
      BfsInv sm.transitionMap src toId P queue visited →
      bfsLoop sm toId [] fuel queue visited = some p →
      ∀ n, Walk sm.transitionMap src toId n → p.length ≤ n := by
  intro fuel
  induction fuel with
  | zero => intro queue visited P p _ h; cases h
  | succ fuel ih =>
    intro queue visited P p inv h n hw
    match queue, inv with
    | [], _ => cases h
    | e :: rest, inv =>
      rw [bfsLoop] at h
      by_cases hd : e.path.length > maxPathDepth
      · rw [if_pos hd] at h; cases h
      · rw [if_neg hd] at h
        cases hlook : lookupA sm.transitionMap e.statusId with
        | none =>
          -- `transitionMap.get(currentId)` is undefined: continue with the rest
          rw [hlook] at h
          refine ih rest visited (P ++ [e.statusId]) p ?_ h n hw
          refine ⟨inv.srcVisited, inv.targetNotVisited, ?_, ?_, ?_, ?_, ?_, ?_⟩
          · intro v
            have hc := inv.cover v
            simp only [List.map_cons, List.mem_cons, List.mem_append,
              List.mem_singleton] at hc ⊢
            tauto
          · have hnd := inv.nodesNodup
            simp only [List.map_cons] at hnd
            exact (List.nodup_cons.mp hnd).2
          · intro u hu l hl wt hwt
            rcases List.mem_append.mp hu with hu' | hu'
            · exact inv.closedP u hu' l hl wt hwt
            · rcases List.mem_singleton.mp hu' with rfl
              rw [hlook] at hl
              cases hl
          · exact (List.pairwise_cons.mp inv.sorted).2
          · intro h' e' hh' he'
            have h1 := inv.bounded e e' rfl (List.mem_cons_of_mem _ he')
            have h2 := head_min inv.sorted e h' rfl
              (List.mem_cons_of_mem _ (List.mem_of_mem_head? hh'))
            omega
          · intro e' he' n' hw'
            exact inv.opt e' (List.mem_cons_of_mem _ he') n' hw'
        | some neighbors =>
          rw [hlook] at h
          dsimp only at h
          cases hscan : bfsScan sm toId [] e.statusId e.path neighbors visited rest with
          | inl found =>
            -- the scan found the target: the returned path beats any walk
            rw [hscan] at h
            injection h with h1
            subst h1
            have hlen := bfsScan_inl_len _ _ _ _ hscan
            have hb := bfs_head_bound inv inv.targetNotVisited n hw
            omega
          | inr vq =>
            -- the scan enqueued fresh entries: re-establish the invariant
            obtain ⟨visited', queue'⟩ := vq
            rw [hscan] at h
            rcases bfsScan_inr_spec _ _ _ _ _ hscan with ⟨fresh, hq, hv, hfr, hnd, hns⟩
            refine ih queue' visited' (P ++ [e.statusId]) p ?_ h n hw
            subst hq
            subst hv
            have hrestVisited : ∀ x ∈ rest.map BfsEntry.statusId, x ∈ visited := by
              intro x hx
              refine (inv.cover x).mpr (Or.inr ?_)
              simp only [List.map_cons, List.mem_cons]
              exact Or.inr hx
            refine ⟨List.mem_append_left _ inv.srcVisited, ?_, ?_, ?_, ?_, ?_, ?_, ?_⟩
            · intro hc
              rcases List.mem_append.mp hc with hc' | hc'
              · exact inv.targetNotVisited hc'
              · rcases List.mem_map.mp hc' with ⟨f, hf, hid⟩
                exact (hfr f hf).2.1 hid
            · intro v
              constructor
              · intro hv
                rcases List.mem_append.mp hv with hv' | hv'
                · rcases (inv.cover v).mp hv' with hP | hq
                  · exact Or.inl (List.mem_append_left _ hP)
                  · rw [List.map_cons] at hq
                    rcases List.mem_cons.mp hq with heq | hq'
                    · exact Or.inl (List.mem_append_right _ (by simp [heq]))
                    · exact Or.inr (by
                        rw [List.map_append]
                        exact List.mem_append_left _ hq')
                · exact Or.inr (by
                    rw [List.map_append]
                    exact List.mem_append_right _ hv')
              · intro hv
                rcases hv with hv' | hv'
                · rcases List.mem_append.mp hv' with hP | hsing
                  · exact List.mem_append_left _ ((inv.cover v).mpr (Or.inl hP))
                  · rcases List.mem_singleton.mp hsing with rfl
                    exact List.mem_append_left _
                      ((inv.cover _).mpr (Or.inr (by simp)))
                · rw [List.map_append] at hv'
                  rcases List.mem_append.mp hv' with hr | hf
                  · exact List.mem_append_left _ (hrestVisited v hr)
                  · exact List.mem_append_right _ hf
            · rw [List.map_append]
              refine List.nodup_append.mpr ⟨?_, hnd, ?_⟩
              · have hnd0 := inv.nodesNodup
                simp only [List.map_cons] at hnd0
                exact (List.nodup_cons.mp hnd0).2
              · intro x hx1 hx2
                rcases List.mem_map.mp hx2 with ⟨f, hf, hid⟩
                exact (hfr f hf).1 (hid ▸ hrestVisited x hx1)
            · intro u hu l hl wt hwt
              rcases List.mem_append.mp hu with hu' | hu'
              · exact List.mem_append_left _ (inv.closedP u hu' l hl wt hwt)
              · rcases List.mem_singleton.mp hu' with rfl
                rw [hlook] at hl
                injection hl with hl1
                subst hl1
                exact (hns wt hwt).2
            · refine List.pairwise_append.mpr ⟨(List.pairwise_cons.mp inv.sorted).2,
                pairwise_le_of_const (fun a ha => (hfr a ha).2.2), ?_⟩
              intro a ha b hb
              have h1 := inv.bounded e a rfl (List.mem_cons_of_mem _ ha)
              have h2 := (hfr b hb).2.2
              omega
            · intro h' e' hh' he'
              have hlow : e.path.length ≤ h'.path.length := by
                rcases List.mem_append.mp (List.mem_of_mem_head? hh') with hm | hm
                · exact head_min inv.sorted e h' rfl (List.mem_cons_of_mem _ hm)
                · rw [(hfr h' hm).2.2]; omega
              have hup : e'.path.length ≤ e.path.length + 1 := by
                rcases List.mem_append.mp he' with hm | hm
                · exact inv.bounded e e' rfl (List.mem_cons_of_mem _ hm)
                · rw [(hfr e' hm).2.2]
              omega
            · intro e' he' n' hw'
              rcases List.mem_append.mp he' with hm | hm
              · exact inv.opt e' (List.mem_cons_of_mem _ hm) n' hw'
              · rcases hfr e' hm with ⟨hnv, _, hlen⟩
                have := bfs_head_bound inv hnv n' hw'
                omega

/-- Every path produced by the DFS of `findAllTransitionPaths` is a walk
from the source to the target of matching length. -/
lemma dfs_sound {sm : StateMachine} {src toId : String} :
    ∀ (fuel : Nat) (cur : String) (path : List Step) (visited : List String)
      (paths : List (List Step)) (q : List Step),
      q ∈ dfs sm toId fuel cur path visited paths →
      (∀ r ∈ paths, Walk sm.transitionMap src toId r.length) →
      Walk sm.transitionMap src cur path.length →
      Walk sm.transitionMap src toId q.length := by
  intro fuel
  induction fuel with
  | zero => intro cur path visited paths q hq hacc _; exact hacc q hq
  | succ fuel ih =>
    intro cur path visited paths q hq hacc hcur
    rw [dfs] at hq
    by_cases hto : cur = toId
    · rw [if_pos hto] at hq
      rcases List.mem_append.mp hq with hq' | hq'
      · exact hacc q hq'
      · rcases List.mem_singleton.mp hq' with rfl
        exact hto ▸ hcur
    · rw [if_neg hto] at hq
      by_cases hdep : path.length > maxPathDepth
      · rw [if_pos hdep] at hq
        exact hacc q hq
      · rw [if_neg hdep] at hq
        dsimp only at hq
        cases hlook : lookupA sm.transitionMap cur with
        | none =>
          rw [hlook] at hq
          exact hacc q hq
        | some neighbors =>
          rw [hlook] at hq
          dsimp only at hq
          have hfold : ∀ (ns : List (String × WfTransition)) (acc : List (List Step)),
              (∀ x ∈ ns, x ∈ neighbors) →
              (∀ r ∈ acc, Walk sm.transitionMap src toId r.length) →
              q ∈ ns.foldl
                (fun acc p =>
                  if p.1 ∈ visited ++ [cur] then acc
                  else dfs sm toId fuel p.1 (path ++ [mkStep sm p.2 cur p.1])
                    (visited ++ [cur]) acc) acc →
              Walk sm.transitionMap src toId q.length := by
            intro ns
            induction ns with
            | nil => intro acc _ hacc' hq'; exact hacc' q hq'
            | cons x rest ihns =>
              intro acc hsub hacc' hq'
              rw [List.foldl_cons] at hq'
              by_cases hvx : x.1 ∈ visited ++ [cur]
              · rw [if_pos hvx] at hq'
                exact ihns _ (fun y hy => hsub y (List.mem_cons_of_mem _ hy)) hacc' hq'
              · rw [if_neg hvx] at hq'
                refine ihns _ (fun y hy => hsub y (List.mem_cons_of_mem _ hy)) ?_ hq'
                intro r hr
                refine ih x.1 (path ++ [mkStep sm x.2 cur x.1]) (visited ++ [cur])
                  acc r hr hacc' ?_
                have hw := hcur.snoc hlook (hsub x (List.mem_cons_self x rest))
                simpa using hw
          exact hfold neighbors paths (fun x hx => hx) hacc hq

lemma bfsLoop_steps {sm : StateMachine} {toId : String} {excludeIds : List String}
    (hto : toId ∉ excludeIds) :
    ∀ (fuel : Nat) (queue : List BfsEntry) (visited : List String) (p : List Step),
      bfsLoop sm toId excludeIds fuel queue visited = some p →
      (∀ e ∈ queue, ∀ s ∈ e.path, s.toId ∉ excludeIds) →
      ∀ s ∈ p, s.toId ∉ excludeIds := by
  intro fuel
  induction fuel with
  | zero => intro queue visited p h; cases h
  | succ fuel ih =>
    intro queue visited p h hq
    match queue with
    | [] => cases h
    | e :: rest =>
      rw [bfsLoop] at h
      split at h
      · cases h
      · split at h
        · exact ih _ _ _ h (fun e' he' => hq e' (List.mem_cons_of_mem _ he'))
        · rename_i neighbors _
          split at h
          · rename_i found hscan
            injection h with h1
            subst h1
            exact bfsScan_inl_steps hto (hq e (List.mem_cons_self e rest)) _ _ _ _ hscan
          · rename_i visited' queue' hscan
            exact ih _ _ _ h
              (bfsScan_inr_steps (hq e (List.mem_cons_self e rest)) _ _ _ _ _ hscan
                (fun e' he' => hq e' (List.mem_cons_of_mem _ he')))

lemma bfsInv_init {tm : List (String × List (String × WfTransition))}
    {src toId : String} (hne : src ≠ toId) :
    BfsInv tm src toId [] [⟨src, []⟩] [src] := by
  refine ⟨by simp, ?_, by simp, by simp, ?_, by simp, ?_, ?_⟩
  · simp only [List.mem_singleton]
    exact fun hc => hne hc.symm
  · intro u hu
    cases hu
  · intro h e hh he
    injection hh with hh1
    subst hh1
    rcases List.mem_singleton.mp he with rfl
    simp
  · intro e he n _
    rcases List.mem_singleton.mp he with rfl
    simp

/-! ### Transport retry lemmas (towards C5) -/

lemma requestSimGo_spec (attempt : Nat → FetchOutcome) (endpoint : String) :
    ∀ (k rc : Nat), rc + k = maxAttemptsR →
      (requestSimGo attempt endpoint (k + 1) rc).2.length ≤ k + 1 ∧
      ∀ i rec, (requestSimGo attempt endpoint (k + 1) rc).2.get? i = some rec →
        rec.outcome = attempt (rc + i) ∧
        ∀ d, rec.delayMs = some d →
          (rec.outcome = FetchOutcome.network →
            d = retryBaseMs * backoffMultiplier ^ (rc + i)) ∧
          ∀ s ra, rec.outcome = FetchOutcome.response s ra →
            (s = 429 → d = (ra.getD rateLimitDefaultS) * 1000) ∧
            (500 ≤ s → d = retryBaseMs * backoffMultiplier ^ (rc + i)) := by
  intro k
  induction k with
  | zero =>
    intro rc hrc
    have hlt : ¬ rc < maxAttemptsR := by omega
    rw [requestSimGo]
    cases hout : attempt rc with
    | network =>
      dsimp only
      rw [if_neg hlt]
      refine ⟨by simp, ?_⟩
      intro i rec hrec
      match i, hrec with
      | 0, hrec =>
        injection hrec with hrec
        subst hrec
        exact ⟨by simp [hout], by intro d hd; cases hd⟩
    | response status retryAfter =>
      dsimp only
      rw [if_neg (by omega : ¬ (status = 429 ∧ rc < maxAttemptsR))]
      by_cases hok : okStatus status
      · rw [if_pos hok]
        refine ⟨by simp, ?_⟩
        intro i rec hrec
        match i, hrec with
        | 0, hrec =>
          injection hrec with hrec
          subst hrec
          exact ⟨by simp [hout], by intro d hd; cases hd⟩
      · rw [if_neg hok, if_neg (by omega)]
        refine ⟨by simp, ?_⟩
        intro i rec hrec
        match i, hrec with
        | 0, hrec =>
          injection hrec with hrec
          subst hrec
          exact ⟨by simp [hout], by intro d hd; cases hd⟩
  | succ k ih =>
    intro rc hrc
    have hlt : rc < maxAttemptsR := by omega
    have ih' := ih (rc + 1) (by omega)
    rw [requestSimGo]
    cases hout : attempt rc with
    | network =>
      dsimp only
      rw [if_pos hlt]
      refine ⟨by simpa using Nat.succ_le_succ ih'.1, ?_⟩
      intro i rec hrec
      match i, hrec with
      | 0, hrec =>
        injection hrec with hrec
        subst hrec
        refine ⟨by simp [hout], ?_⟩
        intro d hd
        injection hd with hd
        subst hd
        refine ⟨fun _ => by simp, ?_⟩
        intro s ra hres
        cases hres
      | i + 1, hrec =>
        simp only [List.get?_cons_succ] at hrec
        have := ih'.2 i rec hrec
        have harith : rc + 1 + i = rc + (i + 1) := by omega
        rw [harith] at this
        exact this
    | response status retryAfter =>
      dsimp only
      by_cases h429 : status = 429
      · rw [if_pos ⟨h429, hlt⟩]
        refine ⟨by simpa using Nat.succ_le_succ ih'.1, ?_⟩
        intro i rec hrec
        match i, hrec with
        | 0, hrec =>
          injection hrec with hrec
          subst hrec
          refine ⟨by simp [hout], ?_⟩
          intro d hd
          injection hd with hd
          subst hd
          refine ⟨(fun hcon => by cases hcon), ?_⟩
          intro s ra hres
          injection hres with hs hra
          subst hs
          subst hra
          exact ⟨fun _ => rfl, fun h500 => by omega⟩
        | i + 1, hrec =>
          simp only [List.get?_cons_succ] at hrec
          have := ih'.2 i rec hrec
          have harith : rc + 1 + i = rc + (i + 1) := by omega
          rw [harith] at this
          exact this
      · rw [if_neg (by intro hc; exact h429 hc.1)]
        by_cases hok : okStatus status
        · rw [if_pos hok]
          refine ⟨by simp, ?_⟩
          intro i rec hrec
          match i, hrec with
          | 0, hrec =>
            injection hrec with hrec
            subst hrec
            exact ⟨by simp [hout], by intro d hd; cases hd⟩
        · rw [if_neg hok]
          by_cases h5 : 500 ≤ status
          · rw [if_pos ⟨h5, hlt⟩]
            refine ⟨by simpa using Nat.succ_le_succ ih'.1, ?_⟩
            intro i rec hrec
            match i, hrec with
            | 0, hrec =>
              injection hrec with hrec
              subst hrec
              refine ⟨by simp [hout], ?_⟩
              intro d hd
              injection hd with hd
              subst hd
              refine ⟨(fun hcon => by cases hcon), ?_⟩
              intro s ra hres
              injection hres with hs hra
              subst hs
              subst hra
              exact ⟨fun h429' => absurd h429' h429, fun _ => rfl⟩
            | i + 1, hrec =>
              simp only [List.get?_cons_succ] at hrec
              have := ih'.2 i rec hrec
              have harith : rc + 1 + i = rc + (i + 1) := by omega
              rw [harith] at this
              exact this
          · rw [if_neg (by intro hc; exact h5 hc.1)]
            refine ⟨by simp, ?_⟩
            intro i rec hrec
            match i, hrec with
            | 0, hrec =>
              injection hrec with hrec
              subst hrec
              exact ⟨by simp [hout], by intro d hd; cases hd⟩

/-! ### Claim C1 -/

/-- C1: whenever `findShortestTransitionPath` returns a non-null path, no
step of that path has a destination status whose name is in the exclusion
list, except when that destination's name is the final target. -/
lemma shortestPath_steps_not_excluded (sm : StateMachine)
    (fromStatusName toStatusName : String) (excludeStates : List String)
    (p : List Step)
    (h : findShortestTransitionPath sm fromStatusName toStatusName excludeStates =
      Except.ok (some p)) :
    ∀ s ∈ p, ∀ pr ∈ sm.states, pr.1 = s.toId → pr.2.name ∈ excludeStates →
      pr.2.name = toStatusName := by
  simp only [findShortestTransitionPath] at h
  split at h
  · cases h
  · split at h
    · injection h with h1
      injection h1 with h2
      subst h2
      intro s hs
      cases hs
    · split at h
      · injection h with h1
        cases h1
      · rename_i hnotex
        injection h with h1
        intro s hs pr hpr hid hex
        exfalso
        have hins : s.toId ∈ collectExcludedIds sm.states excludeStates :=
          hid ▸ collectExcludedIds_complete hpr hex
        have hto : (resolveStatusId sm.states toStatusName).getD "" ∉
            collectExcludedIds sm.states excludeStates := hnotex
        have := bfsLoop_steps hto _ _ _ p h1 (by
          intro e he s' hs'
          rcases List.mem_singleton.mp he with rfl
          cases hs')
        exact this s hs hins

/-- C1 restated over the executable step check: every step of a returned
path passes the no-excluded-destination test. -/
theorem claim1_paths_avoid_exclusions (sm : StateMachine)
    (fromStatusName toStatusName : String) (excludeStates : List String)
    (p : List Step)
    (h : findShortestTransitionPath sm fromStatusName toStatusName excludeStates =
      Except.ok (some p)) :
    p.all (fun s => sm.states.all (fun pr =>
      if pr.1 = s.toId ∧ pr.2.name ∈ excludeStates then
        decide (pr.2.name = toStatusName)
      else true)) = true := by
  have H := shortestPath_steps_not_excluded sm fromStatusName toStatusName
    excludeStates p h
  rw [List.all_eq_true]
  intro s hs
  rw [List.all_eq_true]
  intro pr hpr
  by_cases hc : pr.1 = s.toId ∧ pr.2.name ∈ excludeStates
  · rw [if_pos hc]
    exact decide_eq_true (H s hs pr hpr hc.1 hc.2)
  · rw [if_neg hc]

/-- Witness for C1 at a concrete machine: the run hypothesis is discharged
by evaluation. -/
theorem claim1_witness :
    ([stepAC].all (fun s => smWitness.states.all (fun pr =>
      if pr.1 = s.toId ∧ pr.2.name ∈ ["B"] then
        decide (pr.2.name = "C")
      else true))) = true :=
  claim1_paths_avoid_exclusions smWitness "A" "C" ["B"] [stepAC] (by rfl)

/-! ### Claim C2 -/

/-- C2: with an empty exclusion list, a non-null result of
`findShortestTransitionPath` is no longer than any path enumerated by
`findAllTransitionPaths` for the same pair of statuses. -/
theorem claim2_shortest_path_minimal (sm : StateMachine) (A B : String)
    (p q : List Step) (L : List (List Step))
    (h1 : findShortestTransitionPath sm A B [] = Except.ok (some p))
    (h2 : findAllTransitionPaths sm A B = Except.ok L)
    (hq : q ∈ L) : p.length ≤ q.length := by
  simp only [findShortestTransitionPath] at h1
  simp only [findAllTransitionPaths] at h2
  split at h1
  · cases h1
  · rename_i hfalsy
    split at h1
    · injection h1 with h1'
      injection h1' with h1''
      subst h1''
      exact Nat.zero_le _
    · rename_i hne
      split at h1
      · cases h1
      · injection h1 with h1'
        rw [collectExcludedIds_nil] at h1'
        rw [if_neg hfalsy] at h2
        rw [if_neg hne] at h2
        injection h2 with h2'
        subst h2'
        have hwalk := @dfs_sound sm ((resolveStatusId sm.states A).getD "")
          ((resolveStatusId sm.states B).getD "") (maxPathDepth + 2)
          ((resolveStatusId sm.states A).getD "") [] [] [] q hq
          (by intro r hr; cases hr) (Walk.nil _)
        exact bfsLoop_opt _ _ _ [] p (bfsInv_init hne) h1' q.length hwalk

/-- Witness for C2: on `smWitness`, the BFS result for `A → C` (one step)
is no longer than the enumerated two-step and one-step paths. -/
theorem claim2_witness :
    [stepAC].length ≤
      ([{ id := "t12", name := "Start", fromId := "1", toId := "2",
          fromName := "A", toName := "B" },
        { id := "t23", name := "Finish", fromId := "2", toId := "3",
          fromName := "B", toName := "C" }] : List Step).length :=
  claim2_shortest_path_minimal smWitness "A" "C" [stepAC] _ _ (by rfl) (by rfl)
    (by decide)

/-! ### Claim C7 -/

/-! ### Monad unfolding lemmas -/

lemma JiraM.bind_def {α β : Type} (m : JiraM α) (f : α → JiraM β) :
    m >>= f = JiraM.bind m f := rfl

lemma JiraM.pure_def {α : Type} (a : α) : (pure a : JiraM α) = JiraM.pure a := rfl

lemma JiraM.bind_apply {α β : Type} (m : JiraM α) (f : α → JiraM β)
    (s : ClientState) :
    JiraM.bind m f s =
      match m s with
      | (Except.ok a, s') => f a s'
      | (Except.error e, s') => (Except.error e, s') := rfl

lemma JiraM.pure_apply {α : Type} (a : α) (s : ClientState) :
    JiraM.pure a s = (Except.ok a, s) := rfl

lemma JiraM.throw_apply {α : Type} (e : JErr) (s : ClientState) :
    (JiraM.throw e : JiraM α) s = (Except.error e, s) := rfl

lemma callBackend_apply {α : Type} (c : Call) (r : Except JErr α)
    (s : ClientState) :
    callBackend c r s = (r, { s with calls := s.calls ++ [c] }) := rfl

lemma JiraM.pure_eq {α : Type} : (Pure.pure : α → JiraM α) = JiraM.pure := rfl

lemma JiraM.bind_eq {α β : Type} :
    (Bind.bind : JiraM α → (α → JiraM β) → JiraM β) = JiraM.bind := rfl

lemma fieldOptionsCalls_noPost (fieldName : JsInput) :
    ∀ c ∈ fieldOptionsCalls fieldName, isPostCall c = false := by
  cases fieldName with
  | nonString => intro c hc; cases hc
  | jstr s =>
    intro c hc
    unfold fieldOptionsCalls at hc
    dsimp only at hc
    by_cases hs : s = ""
    · rw [if_pos hs] at hc; cases hc
    · rw [if_neg hs] at hc
      cases hm : lookupA fieldMappings s with
      | none => rw [hm] at hc; cases hc
      | some endpoint =>
        rw [hm] at hc
        rcases List.mem_singleton.mp hc with rfl
        rfl

lemma getFieldOptions_run (bk : Backend) (fieldName : JsInput) (st : ClientState) :
    getFieldOptions bk fieldName st =
      (Except.ok (fieldOptionsVal bk fieldName),
       { st with calls := st.calls ++ fieldOptionsCalls fieldName }) := by
  cases fieldName with
  | nonString =>
    simp [getFieldOptions, JiraM.tryCatch, JiraM.throw, JiraM.pure,
      JiraM.pure_eq, fieldOptionsVal, fieldOptionsCalls]
    try rfl
  | jstr s =>
    by_cases hs : s = ""
    · simp [getFieldOptions, JiraM.tryCatch, JiraM.throw, JiraM.pure,
        JiraM.pure_eq, fieldOptionsVal, fieldOptionsCalls, hs]
      try rfl
    · cases hm : lookupA fieldMappings s with
      | none =>
        simp [getFieldOptions, JiraM.tryCatch, JiraM.throw, JiraM.pure,
          JiraM.pure_eq, fieldOptionsVal, fieldOptionsCalls, hs, hm]
        try rfl
      | some endpoint =>
        cases hop : bk.fieldOptions endpoint with
        | ok l =>
          simp [getFieldOptions, JiraM.tryCatch, JiraM.throw, JiraM.pure,
            JiraM.pure_eq, fieldOptionsVal, fieldOptionsCalls, hs, hm, hop,
            callBackend]
          try rfl
        | error e =>
          simp [getFieldOptions, JiraM.tryCatch, JiraM.throw, JiraM.pure,
            JiraM.pure_eq, fieldOptionsVal, fieldOptionsCalls, hs, hm, hop,
            callBackend]

lemma getDefaultFieldValue_run (bk : Backend) (key fieldId : String)
    (info : FieldInfo) (st : ClientState) :
    ∃ Δ, (∀ c ∈ Δ, isPostCall c = false) ∧
      getDefaultFieldValue bk key fieldId info st =
        (Except.ok (defaultValueOf bk fieldId info),
         { st with calls := st.calls ++ Δ }) := by
  unfold getDefaultFieldValue defaultValueOf
  by_cases h1 : fieldId = "resolution" ∨ info.name = "Resolution"
  · rw [if_pos h1, if_pos h1]
    simp only [JiraM.bind_def, JiraM.bind_apply, getFieldOptions_run,
      JiraM.pure_def, JiraM.pure_apply, JiraM.tryCatch]
    cases hX : ((fieldOptionsVal bk (JsInput.jstr "resolution")).find?
        (fun r => r.name = "Done")) with
    | some r =>
      refine ⟨fieldOptionsCalls (JsInput.jstr "resolution"),
        fieldOptionsCalls_noPost _, ?_⟩
      simp only [hX, JiraM.pure_eq, JiraM.bind_eq, JiraM.pure, JiraM.bind, JiraM.tryCatch, getFieldOptions_run, List.append_assoc]
      rfl
    | none =>
      cases hH : (fieldOptionsVal bk (JsInput.jstr "resolution")).head? with
      | some r =>
        refine ⟨fieldOptionsCalls (JsInput.jstr "resolution"),
          fieldOptionsCalls_noPost _, ?_⟩
        simp only [hX, hH, JiraM.pure_eq, JiraM.bind_eq, JiraM.pure, JiraM.bind, JiraM.tryCatch, getFieldOptions_run, List.append_assoc]
        rfl
      | none =>
        by_cases h2 : fieldId = "priority" ∨ info.name = "Priority"
        · rw [if_pos h2, if_pos h2]
          simp only [hX, hH, Option.map_none', JiraM.bind_def, JiraM.bind_apply,
            getFieldOptions_run, JiraM.pure_def, JiraM.pure_apply]
          cases hY : ((fieldOptionsVal bk (JsInput.jstr "priority")).find?
              (fun p => p.name = "Medium")) with
          | some p =>
            refine ⟨fieldOptionsCalls (JsInput.jstr "resolution") ++
              fieldOptionsCalls (JsInput.jstr "priority"), ?_, ?_⟩
            · intro c hc
              rcases List.mem_append.mp hc with hc' | hc'
              · exact fieldOptionsCalls_noPost _ c hc'
              · exact fieldOptionsCalls_noPost _ c hc'
            · simp only [hY, JiraM.pure_eq, JiraM.bind_eq, JiraM.pure, JiraM.bind, JiraM.tryCatch, getFieldOptions_run, List.append_assoc]
              rfl
          | none =>
            cases hK : (fieldOptionsVal bk (JsInput.jstr "priority")).head? with
            | some p =>
              refine ⟨fieldOptionsCalls (JsInput.jstr "resolution") ++
                fieldOptionsCalls (JsInput.jstr "priority"), ?_, ?_⟩
              · intro c hc
                rcases List.mem_append.mp hc with hc' | hc'
                · exact fieldOptionsCalls_noPost _ c hc'
                · exact fieldOptionsCalls_noPost _ c hc'
              · simp only [hY, hK, JiraM.pure_eq, JiraM.bind_eq, JiraM.pure, JiraM.bind, JiraM.tryCatch, getFieldOptions_run, List.append_assoc]
                rfl
            | none =>
              refine ⟨fieldOptionsCalls (JsInput.jstr "resolution") ++
                fieldOptionsCalls (JsInput.jstr "priority"), ?_, ?_⟩
              · intro c hc
                rcases List.mem_append.mp hc with hc' | hc'
                · exact fieldOptionsCalls_noPost _ c hc'
                · exact fieldOptionsCalls_noPost _ c hc'
              · simp only [hY, hK, JiraM.pure_eq, JiraM.bind_eq, JiraM.pure, JiraM.bind, JiraM.tryCatch, getFieldOptions_run, List.append_assoc]
                rfl
        · rw [if_neg h2, if_neg h2]
          refine ⟨fieldOptionsCalls (JsInput.jstr "resolution"),
            fieldOptionsCalls_noPost _, ?_⟩
          simp only [hX, hH, JiraM.pure_eq, JiraM.bind_eq, JiraM.pure, JiraM.bind, JiraM.tryCatch, getFieldOptions_run, List.append_assoc]
          rfl
  · rw [if_neg h1, if_neg h1]
    by_cases h2 : fieldId = "priority" ∨ info.name = "Priority"
    · rw [if_pos h2, if_pos h2]
      simp only [JiraM.bind_def, JiraM.bind_apply, getFieldOptions_run,
        JiraM.pure_def, JiraM.pure_apply]
      cases hY : ((fieldOptionsVal bk (JsInput.jstr "priority")).find?
          (fun p => p.name = "Medium")) with
      | some p =>
        refine ⟨fieldOptionsCalls (JsInput.jstr "priority"),
          fieldOptionsCalls_noPost _, ?_⟩
        simp only [hY, JiraM.pure_eq, JiraM.bind_eq, JiraM.pure, JiraM.bind, JiraM.tryCatch, getFieldOptions_run, List.append_assoc]
        rfl
      | none =>
        cases hK : (fieldOptionsVal bk (JsInput.jstr "priority")).head? with
        | some p =>
          refine ⟨fieldOptionsCalls (JsInput.jstr "priority"),
            fieldOptionsCalls_noPost _, ?_⟩
          simp only [hY, hK, JiraM.pure_eq, JiraM.bind_eq, JiraM.pure, JiraM.bind, JiraM.tryCatch, getFieldOptions_run, List.append_assoc]
          rfl
        | none =>
          refine ⟨fieldOptionsCalls (JsInput.jstr "priority"),
            fieldOptionsCalls_noPost _, ?_⟩
          simp only [hY, hK, JiraM.pure_eq, JiraM.bind_eq, JiraM.pure, JiraM.bind, JiraM.tryCatch, getFieldOptions_run, List.append_assoc]
          rfl
    · rw [if_neg h2, if_neg h2]
      refine ⟨[], fun c hc => absurd hc (List.not_mem_nil c), ?_⟩
      simp only [JiraM.tryCatch, JiraM.pure_eq, JiraM.bind_eq, JiraM.pure,
        JiraM.bind, List.append_nil]

lemma lookupA_setA_self {α : Type} :
    ∀ (l : List (String × α)) (k : String) (v : α),
      lookupA (setA l k v) k = some v := by
  intro l
  induction l with
  | nil => intro k v; simp [setA, lookupA]
  | cons p rest ih =>
    intro k v
    by_cases hk : p.1 = k
    · simp [setA, hk, lookupA]
    · simp only [setA]
      rw [if_neg hk]
      simp only [lookupA]
      rw [if_neg hk]
      exact ih k v

lemma lookupA_setA_ne {α : Type} :
    ∀ (l : List (String × α)) (k : String) (v : α) (k' : String), k' ≠ k →
      lookupA (setA l k v) k' = lookupA l k' := by
  intro l
  induction l with
  | nil =>
    intro k v k' hne
    simp only [setA, lookupA]
    rw [if_neg (fun hc => hne hc.symm)]
  | cons p rest ih =>
    intro k v k' hne
    by_cases hk : p.1 = k
    · simp only [setA]
      rw [if_pos hk]
      simp only [lookupA]
      rw [if_neg (fun hc : p.1 = k' => hne (hc.symm.trans hk)), if_neg (by
        intro hc
        exact hne (hc.symm.trans hk))]
    · simp only [setA]
      rw [if_neg hk]
      simp only [lookupA]
      by_cases hp : p.1 = k'
      · rw [if_pos hp, if_pos hp]
      · rw [if_neg hp, if_neg hp]
        exact ih k v k' hne

/-- Specification of the required-field auto-population loop: it never
throws, it issues no transition POSTs, every entry of the resulting
payload either comes from the initial payload or is the computed default
of a required field of the field list, and entries whose initial value is
not JS-falsy are preserved unchanged. -/
lemma populateRequired_run (bk : Backend) (key : String) :
    ∀ (fl : List (String × FieldInfo)) (payload : List (String × FieldValue))
      (missing : List (String × FieldInfo)) (st : ClientState),
      ∃ Δ payload' missing',
        (∀ c ∈ Δ, isPostCall c = false) ∧
        populateRequired bk key fl payload missing st =
          (Except.ok (payload', missing'), { st with calls := st.calls ++ Δ }) ∧
        (∀ fid v, lookupA payload' fid = some v →
          lookupA payload fid = some v ∨
          ∃ info, (fid, info) ∈ fl ∧ info.required = true ∧
            defaultValueOf bk fid info = some v) ∧
        (∀ fid, fieldFalsy (lookupA payload fid) = false →
          lookupA payload' fid = lookupA payload fid) := by
  intro fl
  induction fl with
  | nil =>
    intro payload missing st
    refine ⟨[], payload, missing, fun c hc => absurd hc (List.not_mem_nil c), ?_, ?_, ?_⟩
    · simp [populateRequired, JiraM.pure]
    · intro fid v hv
      exact Or.inl hv
    · intro fid _
      rfl
  | cons hd rest ih =>
    intro payload missing st
    rw [populateRequired]
    by_cases hreq : hd.2.required = true
    · rw [if_pos hreq]
      by_cases hfal : fieldFalsy (lookupA payload hd.1) = true
      · rw [if_pos hfal]
        rcases getDefaultFieldValue_run bk key hd.1 hd.2 st with ⟨Δ0, hnp0, hrun0⟩
        cases hdv : defaultValueOf bk hd.1 hd.2 with
        | some v =>
          rcases ih (setA payload hd.1 v) missing
            { st with calls := st.calls ++ Δ0 } with
            ⟨Δ1, payload', missing', hnp1, hrun1, ha, hb⟩
          refine ⟨Δ0 ++ Δ1, payload', missing', ?_, ?_, ?_, ?_⟩
          · intro c hc
            rcases List.mem_append.mp hc with hc' | hc'
            · exact hnp0 c hc'
            · exact hnp1 c hc'
          · simp only [JiraM.bind_eq, JiraM.bind_apply, hrun0, hdv]
            rw [hrun1]
            simp [List.append_assoc]; try rfl
          · intro fid v' hv'
            rcases ha fid v' hv' with hleft | ⟨info, hmem, hr, hd'⟩
            · by_cases hfid : fid = hd.1
              · subst hfid
                rw [lookupA_setA_self] at hleft
                injection hleft with hleft
                subst hleft
                exact Or.inr ⟨hd.2, by simp, hreq, hdv⟩
              · rw [lookupA_setA_ne payload hd.1 v fid hfid] at hleft
                exact Or.inl hleft
            · exact Or.inr ⟨info, List.mem_cons_of_mem _ hmem, hr, hd'⟩
          · intro fid hnf
            have hfid : fid ≠ hd.1 := by
              intro hc
              rw [hc] at hnf
              rw [hnf] at hfal
              cases hfal
            have := hb fid (by rw [lookupA_setA_ne payload hd.1 v fid hfid]; exact hnf)
            rw [lookupA_setA_ne payload hd.1 v fid hfid] at this
            exact this
        | none =>
          rcases ih payload (missing ++ [hd])
            { st with calls := st.calls ++ Δ0 } with
            ⟨Δ1, payload', missing', hnp1, hrun1, ha, hb⟩
          refine ⟨Δ0 ++ Δ1, payload', missing', ?_, ?_, ?_, hb⟩
          · intro c hc
            rcases List.mem_append.mp hc with hc' | hc'
            · exact hnp0 c hc'
            · exact hnp1 c hc'
          · simp only [JiraM.bind_eq, JiraM.bind_apply, hrun0, hdv]
            rw [hrun1]
            simp [List.append_assoc]; try rfl
          · intro fid v' hv'
            rcases ha fid v' hv' with hleft | ⟨info, hmem, hr, hd'⟩
            · exact Or.inl hleft
            · exact Or.inr ⟨info, List.mem_cons_of_mem _ hmem, hr, hd'⟩
      · rw [if_neg hfal]
        rcases ih payload missing st with ⟨Δ1, payload', missing', hnp1, hrun1, ha, hb⟩
        refine ⟨Δ1, payload', missing', hnp1, hrun1, ?_, hb⟩
        intro fid v' hv'
        rcases ha fid v' hv' with hleft | ⟨info, hmem, hr, hd'⟩
        · exact Or.inl hleft
        · exact Or.inr ⟨info, List.mem_cons_of_mem _ hmem, hr, hd'⟩
    · rw [if_neg hreq]
      rcases ih payload missing st with ⟨Δ1, payload', missing', hnp1, hrun1, ha, hb⟩
      refine ⟨Δ1, payload', missing', hnp1, hrun1, ?_, hb⟩
      intro fid v' hv'
      rcases ha fid v' hv' with hleft | ⟨info, hmem, hr, hd'⟩
      · exact Or.inl hleft
      · exact Or.inr ⟨info, List.mem_cons_of_mem _ hmem, hr, hd'⟩

/-! ### Claim C10 -/

/-- C10: `getFieldOptions` never propagates an error — it always returns
`ok`; a field name outside the five mapped logical fields yields the empty
list without any backend call; a backend failure is caught and yields the
empty list; `_getDefaultFieldValue` likewise never errors, and when the
resolution-options fetch fails the computed default for a resolution field
is `null`; the auto-population loop itself never throws, so a missing
default can only surface later as the transition error thrown by
`transitionIssue`. -/
theorem claim10_field_options_never_throw :
    (∀ (bk : Backend) (fieldName : JsInput) (st : ClientState),
      ∃ res st', getFieldOptions bk fieldName st = (Except.ok res, st')) ∧
    (∀ (bk : Backend) (s : String) (st : ClientState), s ≠ "" →
      lookupA fieldMappings s = none →
      getFieldOptions bk (JsInput.jstr s) st = (Except.ok [], st)) ∧
    (∀ (bk : Backend) (s endpoint : String) (e : JErr) (st : ClientState),
      lookupA fieldMappings s = some endpoint →
      bk.fieldOptions endpoint = Except.error e →
      getFieldOptions bk (JsInput.jstr s) st =
        (Except.ok [],
         { st with calls := st.calls ++ [Call.getFieldOptions endpoint] })) ∧
    (∀ (bk : Backend) (key fieldId : String) (info : FieldInfo) (st : ClientState),
      ∃ v st', getDefaultFieldValue bk key fieldId info st = (Except.ok v, st')) ∧
    (∀ (bk : Backend) (e : JErr) (key : String) (st : ClientState),
      bk.fieldOptions "/resolution" = Except.error e →
      ∃ st', getDefaultFieldValue bk key "resolution"
        { name := "Resolution", required := true } st = (Except.ok none, st')) ∧
    (∀ (bk : Backend) (key : String) (fl : List (String × FieldInfo))
       (payload : List (String × FieldValue)) (missing : List (String × FieldInfo))
       (st : ClientState),
      ∃ pm st', populateRequired bk key fl payload missing st =
        (Except.ok pm, st')) := by
  refine ⟨?_, ?_, ?_, ?_, ?_, ?_⟩
  · intro bk fieldName st
    exact ⟨_, _, getFieldOptions_run bk fieldName st⟩
  · intro bk s st hs hm
    rw [getFieldOptions_run]
    simp [fieldOptionsVal, fieldOptionsCalls, hs, hm]
  · intro bk s endpoint e st hm hop
    rw [getFieldOptions_run]
    have hs : ¬ s = "" := by
      intro hc
      subst hc
      cases hm
    simp [fieldOptionsVal, fieldOptionsCalls, hs, hm, hop]
  · intro bk key fieldId info st
    rcases getDefaultFieldValue_run bk key fieldId info st with ⟨Δ, _, hrun⟩
    exact ⟨_, _, hrun⟩
  · intro bk e key st hop
    rcases getDefaultFieldValue_run bk key "resolution"
      { name := "Resolution", required := true } st with ⟨Δ, _, hrun⟩
    have hval : defaultValueOf bk "resolution"
        { name := "Resolution", required := true } = none := by
      simp [defaultValueOf, fieldOptionsVal, fieldMappings, lookupA, hop]
    rw [hval] at hrun
    exact ⟨_, hrun⟩
  · intro bk key fl payload missing st
    rcases populateRequired_run bk key fl payload missing st with
      ⟨Δ, payload', missing', _, hrun, _, _⟩
    exact ⟨_, _, hrun⟩

/-- Witness for C10: an unmapped field name on an all-failing backend
yields the empty list with no backend call, and the default for a
resolution field is `null` when the options fetch fails. -/
theorem claim10_witness :
    getFieldOptions bkFail (JsInput.jstr "labels") ⟨[], []⟩ =
      (Except.ok [], ⟨[], []⟩) ∧
    getDefaultFieldValue bkFail "AB-1" "resolution"
      { name := "Resolution", required := true } ⟨[], []⟩ =
      (Except.ok none, ⟨[], [Call.getFieldOptions "/resolution"]⟩) :=
  ⟨claim10_field_options_never_throw.2.1 bkFail "labels" ⟨[], []⟩ (by decide) rfl,
   rfl⟩

/-! ### Claim C3 -/

/-- C3: when the freshly fetched status equals the target,
`transitionIssue` returns `true` and the only backend request of the whole
run is the initial issue-status fetch; no workflow fetch, no path
computation, no transition POST. -/
theorem claim3_idempotent_noop (bk : Backend) (issueKey : JsInput)
    (targetStatusName : String) (excludeStates : List String)
    (fields : List (String × FieldValue)) (validatedKey : String)
    (info : IssueBasic) (st : ClientState)
    (hval : validateIssueKey issueKey = Except.ok validatedKey)
    (htarget : targetStatusName ≠ "")
    (hissue : bk.issue validatedKey = Except.ok info)
    (hstatus : info.statusName = targetStatusName) :
    transitionIssue bk issueKey targetStatusName excludeStates fields st =
      (Except.ok true,
       { st with calls := st.calls ++ [Call.getIssue validatedKey] }) := by
  unfold transitionIssue
  rw [hval]
  dsimp only
  rw [if_neg htarget]
  simp only [JiraM.bind_def, JiraM.bind_apply, callBackend_apply, hissue,
    hstatus, if_pos rfl, if_true, JiraM.pure_def, JiraM.pure_apply]
  rfl

/-- Witness for C3 at a concrete backend. -/
theorem claim3_witness :
    transitionIssue
      { issue := fun _ => Except.ok { statusName := "Done" },
        projectId := fun _ => Except.error (JErr.api 500 "/project"),
        schemeDefaultWorkflow := fun _ => Except.error (JErr.api 500 "/scheme"),
        workflowSearch := fun _ => Except.error (JErr.api 500 "/workflow"),
        transitions := fun _ => Except.ok [],
        transitionDetails := fun _ _ => Except.ok [],
        fieldOptions := fun _ => Except.ok [],
        postTransition := fun _ _ => Except.ok (),
        putFields := fun _ _ => Except.ok (),
        searchIssues := fun _ => Except.ok [],
        issueField := fun _ _ => Except.ok FieldValue.nullv }
      (JsInput.jstr "dex-36") "Done" defaultExcludeStates [] ⟨[], []⟩ =
      (Except.ok true, ⟨[], [Call.getIssue "DEX-36"]⟩) :=
  claim3_idempotent_noop _ _ _ _ _ "DEX-36" { statusName := "Done" } ⟨[], []⟩
    rfl (by decide) rfl rfl

/-! ### Claim C5 -/

/-- C5 counterexample: against a backend that answers HTTP 500 forever,
`request` performs 4 total attempts (one initial plus `MAX_ATTEMPTS = 3`
retries), not at most 3 as the claim states. -/
theorem claim5_counterexample :
    (requestSim (fun _ => FetchOutcome.response 500 none) "/workflow/search" 0).2.length
      = 4 ∧
    ¬ ((requestSim (fun _ => FetchOutcome.response 500 none) "/workflow/search" 0).2.length
      ≤ 3) := by
  constructor
  · rfl
  · decide

/-- C5 (amended): for every backend behaviour, `request` makes at most
**4** total attempts (one initial call plus up to 3 retries); each
attempt's outcome is the transport's answer for that attempt index, a 429
retry sleeps the response's `Retry-After` seconds (default 60) times 1000
ms, and a 5xx or network retry sleeps `1000 * 2^retryIndex` ms. -/
theorem claim5_retry_policy (attempt : Nat → FetchOutcome) (endpoint : String) :
    (requestSim attempt endpoint 0).2.length ≤ 4 ∧
    ∀ i rec, (requestSim attempt endpoint 0).2.get? i = some rec →
      rec.outcome = attempt i ∧
      ∀ d, rec.delayMs = some d →
        (rec.outcome = FetchOutcome.network → d = 1000 * 2 ^ i) ∧
        ∀ s ra, rec.outcome = FetchOutcome.response s ra →
          (s = 429 → d = (ra.getD 60) * 1000) ∧
          (500 ≤ s → d = 1000 * 2 ^ i) := by
  have h := requestSimGo_spec attempt endpoint maxAttemptsR 0 (by omega)
  simpa [requestSim, maxAttemptsR, retryBaseMs, backoffMultiplier,
    rateLimitDefaultS] using h

/-- Witness for C5 (amended) at a concrete backend behaviour: one 429 with
`Retry-After: 2`, then success; the theorem bounds the attempts and the
trace evaluates to two attempts. -/
theorem claim5_witness :
    (requestSim
      (fun i => if i = 0 then FetchOutcome.response 429 (some 2)
        else FetchOutcome.response 200 none) "/search" 0).2.length ≤ 4 ∧
    (requestSim
      (fun i => if i = 0 then FetchOutcome.response 429 (some 2)
        else FetchOutcome.response 200 none) "/search" 0).2.map
        AttemptRecord.delayMs = [some 2000, none] :=
  ⟨(claim5_retry_policy _ "/search").1, by decide⟩

/-! ### Claim C6 -/

lemma scanSpec_stop_absorb (statusOf : String → Except JErr String)
    (targetStatus : String) (threshold : Nat) :
    ∀ (rest : List String) (keys : List String),
      rest.foldl (scanSpecStep statusOf targetStatus threshold)
        (ScanOutcome.stop keys) = ScanOutcome.stop keys := by
  intro rest
  induction rest with
  | nil => intro keys; rfl
  | cons k r ih => intro keys; rw [List.foldl_cons]; exact ih keys

/-- C6 counterexample: the claim states that an issue whose status fetch
errors leaves the consecutive-done counter unchanged, but the scan loop
entered with counter 1 leaves an erroring issue with counter 0 — the
`catch` block resets the counter. -/
theorem claim6_counterexample :
    checkIssuesLoop (fun _ => Except.error (JErr.api 404 "/issue/AB-2")) "Done" 5
      ["AB-2"] 1 [] = ScanOutcome.next 0 [] ∧
    ScanOutcome.next 0 ([] : List String) ≠ ScanOutcome.next 1 [] :=
  ⟨rfl, by decide⟩

/-- C6 (amended): the status-check loop behaves, issue by issue, as the
fold `scanSpec`: an erroring issue is skipped (neither counted as done nor
recorded as needing update) but the consecutive-done counter is reset to
zero, exactly as on a confirmed not-done status; the counter is
incremented only on a confirmed target-status match, and the scan stops
once it reaches the threshold. -/
theorem claim6_scan_loop_spec (statusOf : String → Except JErr String)
    (targetStatus : String) (threshold : Nat) :
    ∀ (batch : List String) (count : Nat) (keys : List String),
      checkIssuesLoop statusOf targetStatus threshold batch count keys =
        scanSpec statusOf targetStatus threshold batch count keys := by
  intro batch
  induction batch with
  | nil => intro count keys; rfl
  | cons k rest ih =>
    intro count keys
    rw [checkIssuesLoop, scanSpec, List.foldl_cons]
    cases hst : statusOf k with
    | ok s =>
      simp only [scanSpecStep, hst]
      by_cases hs : s = targetStatus
      · simp only [if_pos hs]
        by_cases hth : threshold ≤ count + 1
        · simp only [if_pos hth]
          exact (scanSpec_stop_absorb statusOf targetStatus threshold rest keys).symm
        · simp only [if_neg hth]
          exact ih (count + 1) keys
      · simp only [if_neg hs]
        exact ih 0 (keys ++ [k])
    | error e =>
      simp only [scanSpecStep, hst]
      exact ih 0 keys

/-- Witness for C6 (amended) at a concrete oracle: a done issue, then an
erroring issue, then a not-done issue; the loop agrees with the fold and
evaluates to a counter of zero with only the not-done key recorded. -/
theorem claim6_witness :
    checkIssuesLoop
      (fun k => if k = "AB-1" then Except.ok "Done"
        else if k = "AB-2" then Except.error (JErr.api 404 "/issue/AB-2")
        else Except.ok "Open") "Done" 3 ["AB-1", "AB-2", "AB-3"] 0 [] =
      scanSpec
        (fun k => if k = "AB-1" then Except.ok "Done"
          else if k = "AB-2" then Except.error (JErr.api 404 "/issue/AB-2")
          else Except.ok "Open") "Done" 3 ["AB-1", "AB-2", "AB-3"] 0 [] ∧
    checkIssuesLoop
      (fun k => if k = "AB-1" then Except.ok "Done"
        else if k = "AB-2" then Except.error (JErr.api 404 "/issue/AB-2")
        else Except.ok "Open") "Done" 3 ["AB-1", "AB-2", "AB-3"] 0 [] =
      ScanOutcome.next 0 ["AB-3"] :=
  ⟨claim6_scan_loop_spec _ "Done" 3 ["AB-1", "AB-2", "AB-3"] 0 [], by decide⟩

/-- C7 counterexample: the claim promises `findShortestTransitionPath`
never throws whenever the status name is present in the graph, but a status
whose id is the empty string (JS-falsy) is present and still produces a
thrown validation error. -/
theorem claim7_counterexample :
    (∃ pr ∈ smNoId.states, pr.2.name = "A") ∧
    findShortestTransitionPath smNoId "A" "A" [] =
      Except.error (JErr.validation "Status not found" "statusName") :=
  ⟨⟨("", { name := "A" }), by simp [smNoId], rfl⟩, rfl⟩

/-- C7 (amended): if some status of the graph is named `A` and every status
named `A` has a non-empty (non-falsy) id, then
`findShortestTransitionPath(sm, A, A, excl)` returns the empty path for any
exclusion list — even one containing `A` — and neither returns null nor
throws. -/
theorem claim7_self_transition_empty (sm : StateMachine) (A : String)
    (excl : List String)
    (hpresent : ∃ pr ∈ sm.states, pr.2.name = A)
    (hids : ∀ pr ∈ sm.states, pr.2.name = A → pr.1 ≠ "") :
    findShortestTransitionPath sm A A excl = Except.ok (some []) := by
  rcases resolveStatusId_isSome hpresent with ⟨i, hi⟩
  rcases resolveStatusId_sound hi with ⟨st, hmem, hname⟩
  have hne : i ≠ "" := hids (i, st) hmem hname
  simp [findShortestTransitionPath, hi, falsyId, hne]

/-- Witness for C7 (amended) at a concrete machine, with `A` itself in the
exclusion list. -/
theorem claim7_witness :
    findShortestTransitionPath smSelf "A" "A" ["A"] = Except.ok (some []) :=
  claim7_self_transition_empty smSelf "A" ["A"]
    ⟨("7", { name := "A" }), by simp [smSelf], rfl⟩
    (by
      intro pr hpr _
      simp only [smSelf, List.mem_singleton] at hpr
      subst hpr
      decide)

/-! ### Normalized issue keys re-validate to themselves -/

lemma toUpper_eq_self_of_toNat_lt {c : Char} (h : c.toNat < 97) : c.toUpper = c := by
  unfold Char.toUpper
  rw [if_neg]
  intro hc
  omega

lemma toNat_le_of_le {c d : Char} (h : c ≤ d) : c.toNat ≤ d.toNat := by
  rw [Char.le_def, UInt32.le_def, BitVec.le_def] at h
  exact h

lemma upperAlpha_toNat {c : Char} (h : isUpperAlpha c = true) :
    65 ≤ c.toNat ∧ c.toNat ≤ 90 := by
  unfold isUpperAlpha at h
  rw [decide_eq_true_eq] at h
  exact ⟨toNat_le_of_le h.1, toNat_le_of_le h.2⟩

lemma digit_toNat {c : Char} (h : isDigitChar c = true) :
    48 ≤ c.toNat ∧ c.toNat ≤ 57 := by
  unfold isDigitChar at h
  rw [decide_eq_true_eq] at h
  exact ⟨toNat_le_of_le h.1, toNat_le_of_le h.2⟩

lemma toUpper_fixed {c : Char}
    (h : isUpperAlphaNum c = true ∨ c = '-') : c.toUpper = c := by
  rcases h with h | rfl
  · unfold isUpperAlphaNum at h
    rw [decide_eq_true_eq] at h
    rcases h with h | h
    · exact toUpper_eq_self_of_toNat_lt (by have := upperAlpha_toNat h; omega)
    · exact toUpper_eq_self_of_toNat_lt (by have := digit_toNat h; omega)
  · decide

lemma space_not_upperAlpha {c : Char} (h : isUpperAlpha c = true) :
    isJsSpace c = false := by
  have := upperAlpha_toNat h
  unfold isJsSpace
  rw [decide_eq_false_iff_not]
  rintro (rfl | rfl | rfl | rfl) <;> exact absurd this (by decide)

lemma space_not_digit {c : Char} (h : isDigitChar c = true) :
    isJsSpace c = false := by
  have := digit_toNat h
  unfold isJsSpace
  rw [decide_eq_false_iff_not]
  rintro (rfl | rfl | rfl | rfl) <;> exact absurd this (by decide)

lemma upperAlphaNum_of_upperAlpha {c : Char} (h : isUpperAlpha c = true) :
    isUpperAlphaNum c = true := by
  unfold isUpperAlphaNum
  rw [decide_eq_true_eq]
  exact Or.inl h

lemma upperAlphaNum_of_digit {c : Char} (h : isDigitChar c = true) :
    isUpperAlphaNum c = true := by
  unfold isUpperAlphaNum
  rw [decide_eq_true_eq]
  exact Or.inr h

lemma dropWhile_cons_of_neg {p : Char → Bool} {a : Char} {l : List Char}
    (h : p a = false) : (a :: l).dropWhile p = a :: l := by
  simp [List.dropWhile_cons, h]

/-- Decomposition of a string accepted by the issue-key pattern. -/
lemma issueKeyPattern_shape {s : String} (h : issueKeyPattern s = true) :
    ∃ c alnum ds, s.data = c :: (alnum ++ '-' :: ds) ∧
      isUpperAlpha c = true ∧ (∀ a ∈ alnum, isUpperAlphaNum a = true) ∧
      ds ≠ [] ∧ (∀ d ∈ ds, isDigitChar d = true) := by
  unfold issueKeyPattern at h
  cases hl : s.toList with
  | nil => rw [hl] at h; cases h
  | cons c rest =>
    rw [hl] at h
    dsimp only at h
    rw [Bool.and_eq_true, Bool.and_eq_true] at h
    obtain ⟨⟨hA, hB⟩, hM⟩ := h
    split at hM
    · rename_i ds heq
      rw [Bool.and_eq_true] at hM
      obtain ⟨hlen, hall⟩ := hM
      refine ⟨c, rest.takeWhile isUpperAlphaNum, ds, ?_, hA, ?_, ?_, ?_⟩
      · rw [show s.data = s.toList from rfl, hl]
        congr 1
        rw [← heq, List.takeWhile_append_dropWhile]
      · intro a ha
        exact List.mem_takeWhile_imp ha
      · intro hc
        rw [decide_eq_true_eq] at hlen
        rw [hc] at hlen
        exact absurd hlen (by decide)
      · intro d hd
        exact List.all_eq_true.mp hall d hd
    · cases hM

lemma issueKeyPattern_ne_empty {n : String} (hp : issueKeyPattern n = true) :
    n ≠ "" := by
  intro hc
  subst hc
  cases hp

/-- A string accepted by the pattern has no leading or trailing JS
whitespace to trim. -/
lemma jsTrim_of_pattern {n : String} (hp : issueKeyPattern n = true) :
    jsTrim n = n := by
  obtain ⟨c, alnum, ds, hdata, hca, _halnum, hds, hdig⟩ := issueKeyPattern_shape hp
  cases hrev : ds.reverse with
  | nil => exact absurd (List.reverse_eq_nil_iff.mp hrev) hds
  | cons d t =>
    have hdmem : d ∈ ds := List.mem_reverse.mp (hrev ▸ List.mem_cons_self d t)
    have h1 : n.data.dropWhile isJsSpace = n.data := by
      rw [hdata]
      exact dropWhile_cons_of_neg (space_not_upperAlpha hca)
    have h2 : n.data.reverse = d :: (t ++ '-' :: (alnum.reverse ++ [c])) := by
      rw [hdata]
      simp [hrev, List.append_assoc]
    unfold jsTrim
    rw [h1, h2, dropWhile_cons_of_neg (space_not_digit (hdig d hdmem)), ← h2,
      List.reverse_reverse]

/-- A string accepted by the pattern is unchanged by upper-casing. -/
lemma jsUpper_of_pattern {n : String} (hp : issueKeyPattern n = true) :
    jsUpper n = n := by
  obtain ⟨c, alnum, ds, hdata, hca, halnum, _hds, hdig⟩ := issueKeyPattern_shape hp
  have hfix : ∀ a ∈ n.data, Char.toUpper a = id a := by
    intro a ha
    rw [hdata] at ha
    simp only [List.mem_cons, List.mem_append] at ha
    rcases ha with rfl | h | rfl | h
    · exact toUpper_fixed (Or.inl (upperAlphaNum_of_upperAlpha hca))
    · exact toUpper_fixed (Or.inl (halnum a h))
    · exact toUpper_fixed (Or.inr rfl)
    · exact toUpper_fixed (Or.inl (upperAlphaNum_of_digit (hdig a h)))
  unfold jsUpper
  rw [List.map_congr_left hfix, List.map_id]

/-- A string accepted by the pattern is accepted verbatim by
`_validateIssueKey`. -/
lemma validateIssueKey_of_pattern {n : String} (hp : issueKeyPattern n = true) :
    validateIssueKey (JsInput.jstr n) = Except.ok n := by
  unfold validateIssueKey
  dsimp only
  rw [jsTrim_of_pattern hp, jsUpper_of_pattern hp,
    if_neg (issueKeyPattern_ne_empty hp), if_pos hp]

/-- Successful validation produces the trimmed-and-uppercased input, which
passes the pattern. -/
lemma validateIssueKey_ok_shape {k : JsInput} {nk : String}
    (h : validateIssueKey k = Except.ok nk) :
    ∃ s, k = JsInput.jstr s ∧ s ≠ "" ∧ nk = jsUpper (jsTrim s) ∧
      issueKeyPattern nk = true := by
  cases k with
  | nonString => cases h
  | jstr s =>
    rw [show validateIssueKey (JsInput.jstr s) =
      (if s = "" then
        Except.error (JErr.validation "Issue key must be a non-empty string"
          "issueKey")
      else
        if issueKeyPattern (jsUpper (jsTrim s)) = true then
          Except.ok (jsUpper (jsTrim s))
        else Except.error (JErr.validation "Invalid issue key format" "issueKey"))
      from rfl] at h
    by_cases hs : s = ""
    · rw [if_pos hs] at h; cases h
    · rw [if_neg hs] at h
      by_cases hp : issueKeyPattern (jsUpper (jsTrim s)) = true
      · rw [if_pos hp] at h
        injection h with h
        exact ⟨s, rfl, hs, h.symm, h ▸ hp⟩
      · rw [if_neg hp] at h; cases h

/-- Validation is idempotent: a validated key re-validates to itself. -/
lemma validateIssueKey_idem {k : JsInput} {nk : String}
    (h : validateIssueKey k = Except.ok nk) :
    validateIssueKey (JsInput.jstr nk) = Except.ok nk := by
  obtain ⟨s, _, _, _, hp⟩ := validateIssueKey_ok_shape h
  exact validateIssueKey_of_pattern hp

/-! ### Run characterizations of the simple keyed operations -/

lemma postPayloadOf_eq_none {c : Call} (h : isPostCall c = false) :
    postPayloadOf c = none := by
  cases c <;> first | rfl | cases h

lemma postsOf_nil_of_noPost {Δ : List Call}
    (h : ∀ c ∈ Δ, isPostCall c = false) : postsOf Δ = [] := by
  induction Δ with
  | nil => rfl
  | cons c rest ih =>
    unfold postsOf List.filterMap
    rw [postPayloadOf_eq_none (h c (List.mem_cons_self c rest))]
    exact ih fun c' hc' => h c' (List.mem_cons_of_mem c hc')

lemma postsOf_append (l1 l2 : List Call) :
    postsOf (l1 ++ l2) = postsOf l1 ++ postsOf l2 :=
  List.filterMap_append l1 l2 postPayloadOf

lemma lookupA_some_pos {α : Type} {l : List (String × α)} {k : String} {v : α}
    (h : lookupA l k = some v) : 0 < l.length := by
  cases l with
  | nil => cases h
  | cons p rest => exact Nat.succ_pos _

lemma getTransitions_run_ok {k : JsInput} {nk : String} (bk : Backend)
    (st : ClientState) (h : validateIssueKey k = Except.ok nk) :
    getTransitions bk k st =
      (bk.transitions nk,
       { st with calls := st.calls ++ [Call.getTransitions nk] }) := by
  unfold getTransitions
  rw [h]
  rfl

lemma getTransitions_run_err {k : JsInput} {e : JErr} (bk : Backend)
    (st : ClientState) (h : validateIssueKey k = Except.error e) :
    getTransitions bk k st = (Except.error e, st) := by
  unfold getTransitions
  rw [h]
  rfl

lemma getTransitionDetails_run_ok {k : JsInput} {nk : String} (bk : Backend)
    (tid : String) (st : ClientState) (h : validateIssueKey k = Except.ok nk)
    (htid : tid ≠ "") :
    getTransitionDetails bk k tid st =
      ((bk.transitionDetails nk tid).map
        (fun ts => ts.find? (fun t => t.id = tid)),
       { st with calls := st.calls ++ [Call.getTransitionDetails nk tid] }) := by
  unfold getTransitionDetails
  rw [h]
  dsimp only
  rw [if_neg htid]
  cases hts : bk.transitionDetails nk tid with
  | ok ts =>
    simp only [JiraM.bind_def, JiraM.bind_apply, callBackend_apply, hts,
      Except.map, JiraM.pure_def, JiraM.pure_apply]
    rfl
  | error e =>
    simp only [JiraM.bind_def, JiraM.bind_apply, callBackend_apply, hts,
      Except.map]

lemma getTransitionDetails_run_empty {k : JsInput} {nk : String} (bk : Backend)
    (st : ClientState) (h : validateIssueKey k = Except.ok nk) :
    getTransitionDetails bk k "" st =
      (Except.error (JErr.validation "Transition ID must be a non-empty string"
        "transitionId"), st) := by
  unfold getTransitionDetails
  rw [h]
  rfl

/-- Specification of one step of the path-execution loop: the step adds at
most one transition POST to the log; on a non-final step every POSTed
payload entry is an auto-populated default; on success exactly one POST
was made, and on a final step its payload retains every non-falsy
caller-supplied field. -/
lemma executeStep_run (bk : Backend) (key : String)
    (fields : List (String × FieldValue)) (isLast : Bool) (tr : Step)
    (st : ClientState)
    (hself : validateIssueKey (JsInput.jstr key) = Except.ok key) :
    ∃ Δ res, executeStep bk key fields isLast tr st =
        (res, { st with calls := st.calls ++ Δ }) ∧
      (postsOf Δ).length ≤ 1 ∧
      (isLast = false → ∀ p ∈ postsOf Δ, autoOnly bk key p) ∧
      (res = Except.ok () → ∃ p, postsOf Δ = [p] ∧
        (isLast = true → ∀ fid v, lookupA fields fid = some v →
          fieldFalsy (some v) = false → lookupA p.fields fid = some v)) := by
  unfold executeStep
  simp only [JiraM.bind_def, JiraM.bind_apply]
  rw [getTransitions_run_ok bk st hself]
  cases htr : bk.transitions key with
  | error e =>
    dsimp only
    refine ⟨[Call.getTransitions key], Except.error e, rfl, ?_, ?_, ?_⟩
    · rw [show postsOf [Call.getTransitions key] = [] from rfl]
      exact Nat.zero_le 1
    · intro _ p hp
      rw [show postsOf [Call.getTransitions key] = [] from rfl] at hp
      cases hp
    · intro hok
      cases hok
  | ok avail =>
    dsimp only
    cases hfind : avail.find?
        (fun t => t.id = tr.id ∨ (t.toName = tr.toName ∧ t.name = tr.name)) with
    | none =>
      dsimp only
      refine ⟨[Call.getTransitions key], Except.error _, rfl, ?_, ?_, ?_⟩
      · rw [show postsOf [Call.getTransitions key] = [] from rfl]
        exact Nat.zero_le 1
      · intro _ p hp
        rw [show postsOf [Call.getTransitions key] = [] from rfl] at hp
        cases hp
      · intro hok
        cases hok
    | some act =>
      dsimp only
      simp only [JiraM.bind_def, JiraM.bind_apply]
      by_cases hid : act.id = ""
      · rw [hid, getTransitionDetails_run_empty bk _ hself]
        dsimp only
        refine ⟨[Call.getTransitions key], Except.error _, rfl, ?_, ?_, ?_⟩
        · rw [show postsOf [Call.getTransitions key] = [] from rfl]
          exact Nat.zero_le 1
        · intro _ p hp
          rw [show postsOf [Call.getTransitions key] = [] from rfl] at hp
          cases hp
        · intro hok
          cases hok
      · rw [getTransitionDetails_run_ok bk act.id _ hself hid]
        cases hdt : bk.transitionDetails key act.id with
        | error e =>
          dsimp only [Except.map]
          refine ⟨[Call.getTransitions key,
            Call.getTransitionDetails key act.id], Except.error e, ?_, ?_, ?_, ?_⟩
          · simp [List.append_assoc]; try rfl
          · rw [show postsOf [Call.getTransitions key,
              Call.getTransitionDetails key act.id] = [] from rfl]
            exact Nat.zero_le 1
          · intro _ p hp
            rw [show postsOf [Call.getTransitions key,
              Call.getTransitionDetails key act.id] = [] from rfl] at hp
            cases hp
          · intro hok
            cases hok
        | ok ts =>
          dsimp only [Except.map]
          cases hdet : ts.find? (fun t => t.id = act.id) with
          | none =>
            dsimp only
            simp only [JiraM.bind_def, JiraM.bind_apply, JiraM.pure_def,
              JiraM.pure_apply]
            simp only [List.length_nil]
            rw [if_neg (Nat.lt_irrefl 0)]
            rw [callBackend_apply]
            refine ⟨[Call.getTransitions key,
              Call.getTransitionDetails key act.id,
              Call.postTransition key ⟨act.id,
                if isLast = true ∧ 0 < fields.length then fields else []⟩],
              bk.postTransition key ⟨act.id,
                if isLast = true ∧ 0 < fields.length then fields else []⟩,
              ?_, ?_, ?_, ?_⟩
            · simp [List.append_assoc]; try rfl
            · rw [show postsOf [Call.getTransitions key,
                Call.getTransitionDetails key act.id,
                Call.postTransition key ⟨act.id,
                  if isLast = true ∧ 0 < fields.length then fields else []⟩] =
                [⟨act.id,
                  if isLast = true ∧ 0 < fields.length then fields else []⟩]
                from rfl]
              exact Nat.le_refl 1
            · intro hlast p hp
              rw [show postsOf [Call.getTransitions key,
                Call.getTransitionDetails key act.id,
                Call.postTransition key ⟨act.id,
                  if isLast = true ∧ 0 < fields.length then fields else []⟩] =
                [⟨act.id,
                  if isLast = true ∧ 0 < fields.length then fields else []⟩]
                from rfl] at hp
              rcases List.mem_singleton.mp hp with rfl
              intro fid v hv
              rw [hlast] at hv
              simp only [Bool.false_eq_true, false_and, if_false] at hv
              rw [show lookupA ([] : List (String × FieldValue)) fid = none
                from rfl] at hv
              cases hv
            · intro _
              refine ⟨⟨act.id,
                if isLast = true ∧ 0 < fields.length then fields else []⟩,
                rfl, ?_⟩
              intro hlast fid v hv hnf
              rw [hlast]
              dsimp only
              rw [if_pos ⟨rfl, lookupA_some_pos hv⟩]
              exact hv
          | some dt =>
            dsimp only
            cases hfl : dt.fields with
            | none =>
              dsimp only
              simp only [JiraM.bind_def, JiraM.bind_apply, JiraM.pure_def,
                JiraM.pure_apply]
              simp only [List.length_nil]
              rw [if_neg (Nat.lt_irrefl 0)]
              rw [callBackend_apply]
              refine ⟨[Call.getTransitions key,
                Call.getTransitionDetails key act.id,
                Call.postTransition key ⟨act.id,
                  if isLast = true ∧ 0 < fields.length then fields else []⟩],
                bk.postTransition key ⟨act.id,
                  if isLast = true ∧ 0 < fields.length then fields else []⟩,
                ?_, ?_, ?_, ?_⟩
              · simp [List.append_assoc]; try rfl
              · rw [show postsOf [Call.getTransitions key,
                  Call.getTransitionDetails key act.id,
                  Call.postTransition key ⟨act.id,
                    if isLast = true ∧ 0 < fields.length then fields else []⟩] =
                  [⟨act.id,
                    if isLast = true ∧ 0 < fields.length then fields else []⟩]
                  from rfl]
                exact Nat.le_refl 1
              · intro hlast p hp
                rw [show postsOf [Call.getTransitions key,
                  Call.getTransitionDetails key act.id,
                  Call.postTransition key ⟨act.id,
                    if isLast = true ∧ 0 < fields.length then fields else []⟩] =
                  [⟨act.id,
                    if isLast = true ∧ 0 < fields.length then fields else []⟩]
                  from rfl] at hp
                rcases List.mem_singleton.mp hp with rfl
                intro fid v hv
                rw [hlast] at hv
                simp only [Bool.false_eq_true, false_and, if_false] at hv
                rw [show lookupA ([] : List (String × FieldValue)) fid = none
                  from rfl] at hv
                cases hv
              · intro _
                refine ⟨⟨act.id,
                  if isLast = true ∧ 0 < fields.length then fields else []⟩,
                  rfl, ?_⟩
                intro hlast fid v hv hnf
                rw [hlast]
                dsimp only
                rw [if_pos ⟨rfl, lookupA_some_pos hv⟩]
                exact hv
            | some fl =>
              dsimp only
              obtain ⟨Δp, payload', missing', hnpp, hrunp, hprov, hpres⟩ :=
                populateRequired_run bk key fl
                  (if isLast = true ∧ 0 < fields.length then fields else []) []
                  { st with calls := st.calls ++ [Call.getTransitions key] ++
                      [Call.getTransitionDetails key act.id] }
              simp only [JiraM.bind_def, JiraM.bind_apply]
              rw [hrunp]
              dsimp only
              cases missing' with
              | cons m ms =>
                simp only [List.length_cons]
                rw [if_pos (Nat.succ_pos ms.length)]
                refine ⟨[Call.getTransitions key,
                  Call.getTransitionDetails key act.id] ++ Δp,
                  Except.error (JErr.transition
                    "Required fields cannot be populated" key), ?_, ?_, ?_, ?_⟩
                · simp [List.append_assoc]; try rfl
                · rw [postsOf_append,
                    show postsOf [Call.getTransitions key,
                      Call.getTransitionDetails key act.id] = [] from rfl,
                    postsOf_nil_of_noPost hnpp]
                  exact Nat.zero_le 1
                · intro _ p hp
                  rw [postsOf_append,
                    show postsOf [Call.getTransitions key,
                      Call.getTransitionDetails key act.id] = [] from rfl,
                    postsOf_nil_of_noPost hnpp] at hp
                  cases hp
                · intro hok
                  cases hok
              | nil =>
                simp only [List.length_nil]
                rw [if_neg (Nat.lt_irrefl 0)]
                rw [callBackend_apply]
                refine ⟨([Call.getTransitions key,
                  Call.getTransitionDetails key act.id] ++ Δp) ++
                    [Call.postTransition key ⟨act.id, payload'⟩],
                  bk.postTransition key ⟨act.id, payload'⟩, ?_, ?_, ?_, ?_⟩
                · simp [List.append_assoc]; try rfl
                · rw [postsOf_append, postsOf_append,
                    show postsOf [Call.getTransitions key,
                      Call.getTransitionDetails key act.id] = [] from rfl,
                    postsOf_nil_of_noPost hnpp]
                  exact Nat.le_refl 1
                · intro hlast p hp
                  rw [postsOf_append, postsOf_append,
                    show postsOf [Call.getTransitions key,
                      Call.getTransitionDetails key act.id] = [] from rfl,
                    postsOf_nil_of_noPost hnpp] at hp
                  rcases List.mem_singleton.mp hp with rfl
                  intro fid v hv
                  dsimp only at hv ⊢
                  rcases hprov fid v hv with hbase | ⟨info, hmem, hreq, hdef⟩
                  · rw [hlast] at hbase
                    simp only [Bool.false_eq_true, false_and, if_false] at hbase
                    rw [show lookupA ([] : List (String × FieldValue)) fid = none
                      from rfl] at hbase
                    cases hbase
                  · exact ⟨ts, dt, fl, info, hdt, hdet, hfl, hmem, hreq, hdef⟩
                · intro _
                  refine ⟨⟨act.id, payload'⟩, ?_, ?_⟩
                  · rw [postsOf_append, postsOf_append,
                      show postsOf [Call.getTransitions key,
                        Call.getTransitionDetails key act.id] = [] from rfl,
                      postsOf_nil_of_noPost hnpp]
                    rfl
                  · intro hlast fid v hv hnf
                    have hpf : (if isLast = true ∧ 0 < fields.length then fields
                        else []) = fields :=
                      if_pos ⟨hlast, lookupA_some_pos hv⟩
                    rw [hpf] at hpres
                    have := hpres fid (by rw [hv]; exact hnf)
                    rw [hv] at this
                    exact this

lemma executePath_nil (bk : Backend) (key : String)
    (fields : List (String × FieldValue)) :
    executePath bk key fields [] = JiraM.pure () := rfl

lemma executePath_cons (bk : Backend) (key : String)
    (fields : List (String × FieldValue)) (tr : Step) (rest : List Step) :
    executePath bk key fields (tr :: rest) =
      JiraM.bind (executeStep bk key fields rest.isEmpty tr)
        (fun _ => executePath bk key fields rest) := rfl

/-- Specification of the whole path-execution loop: every POST except the
last one carries only auto-populated defaults, and when the loop succeeds
on a non-empty path, the last POST retains every non-falsy caller-supplied
field. -/
lemma executePath_run (bk : Backend) (key : String)
    (fields : List (String × FieldValue))
    (hself : validateIssueKey (JsInput.jstr key) = Except.ok key) :
    ∀ (steps : List Step) (st : ClientState),
      ∃ Δ res, executePath bk key fields steps st =
          (res, { st with calls := st.calls ++ Δ }) ∧
        (∀ i p, (postsOf Δ).get? i = some p → i + 1 < (postsOf Δ).length →
          autoOnly bk key p) ∧
        (res = Except.ok () → steps ≠ [] →
          ∃ pl, (postsOf Δ).getLast? = some pl ∧
            ∀ fid v, lookupA fields fid = some v →
              fieldFalsy (some v) = false → lookupA pl.fields fid = some v) := by
  intro steps
  induction steps with
  | nil =>
    intro st
    refine ⟨[], Except.ok (), ?_, ?_, ?_⟩
    · rw [executePath_nil, JiraM.pure_apply, List.append_nil]
    · intro i p hp _
      rw [show postsOf ([] : List Call) = [] from rfl] at hp
      cases i <;> cases hp
    · intro _ hne
      exact absurd rfl hne
  | cons tr rest ih =>
    intro st
    obtain ⟨Δ1, res1, hrun1, hle1, hauto1, hok1⟩ :=
      executeStep_run bk key fields rest.isEmpty tr st hself
    cases rest with
    | nil =>
      cases res1 with
      | error e =>
        refine ⟨Δ1, Except.error e, ?_, ?_, ?_⟩
        · rw [executePath_cons, JiraM.bind_apply, hrun1]
        · intro i p _ hlen
          have := Nat.lt_of_lt_of_le hlen hle1
          omega
        · intro hok
          cases hok
      | ok u =>
        cases u
        obtain ⟨p1, hp1, hcal1⟩ := hok1 rfl
        refine ⟨Δ1, Except.ok (), ?_, ?_, ?_⟩
        · rw [executePath_cons, JiraM.bind_apply, hrun1]
          dsimp only
          rw [executePath_nil, JiraM.pure_apply]
        · intro i p _ hlen
          have := Nat.lt_of_lt_of_le hlen hle1
          omega
        · intro _ _
          refine ⟨p1, ?_, hcal1 rfl⟩
          rw [hp1]
          rfl
    | cons r rs =>
      cases res1 with
      | error e =>
        refine ⟨Δ1, Except.error e, ?_, ?_, ?_⟩
        · rw [executePath_cons, JiraM.bind_apply, hrun1]
        · intro i p _ hlen
          have := Nat.lt_of_lt_of_le hlen hle1
          omega
        · intro hok
          cases hok
      | ok u =>
        cases u
        obtain ⟨p1, hp1, _⟩ := hok1 rfl
        have hauto1' : autoOnly bk key p1 := by
          refine hauto1 rfl p1 ?_
          rw [hp1]
          exact List.mem_singleton.mpr rfl
        obtain ⟨Δ2, res2, hrun2, hidx2, hlast2⟩ :=
          ih { st with calls := st.calls ++ Δ1 }
        refine ⟨Δ1 ++ Δ2, res2, ?_, ?_, ?_⟩
        · rw [executePath_cons, JiraM.bind_apply, hrun1]
          dsimp only
          rw [hrun2]
          simp [List.append_assoc]; try rfl
        · intro i p hp hlen
          rw [postsOf_append, hp1] at hp hlen
          cases i with
          | zero =>
            rw [show ([p1] ++ postsOf Δ2).get? 0 = some p1 from rfl] at hp
            injection hp with hp
            rw [← hp]
            exact hauto1'
          | succ j =>
            refine hidx2 j p ?_ ?_
            · rw [show ([p1] ++ postsOf Δ2).get? (j + 1) =
                (postsOf Δ2).get? j from rfl] at hp
              exact hp
            · rw [List.singleton_append, List.length_cons] at hlen
              omega
        · intro hok _
          obtain ⟨pl, hpl, hcal⟩ := hlast2 hok (by intro hc; cases hc)
          refine ⟨pl, ?_, hcal⟩
          rw [postsOf_append, hp1]
          cases hq : postsOf Δ2 with
          | nil =>
            rw [hq] at hpl
            cases hpl
          | cons q t =>
            rw [hq] at hpl
            rw [List.singleton_append, List.getLast?_cons_cons]
            exact hpl

/-- `getProjectWorkflowName` issues no transition POST. -/
lemma getProjectWorkflowName_run (bk : Backend) (pk : String) (st : ClientState) :
    ∃ Δ res, getProjectWorkflowName bk pk st =
        (res, { st with calls := st.calls ++ Δ }) ∧
      ∀ c ∈ Δ, isPostCall c = false := by
  unfold getProjectWorkflowName
  by_cases hpk : pk = ""
  · refine ⟨[], Except.error (JErr.validation
      "Project key must be a non-empty string" "projectKey"), ?_, ?_⟩
    · rw [if_pos hpk]
      simp only [List.append_nil]
      rfl
    · intro c hc
      cases hc
  · rw [if_neg hpk]
    simp only [JiraM.bind_def, JiraM.bind_apply, callBackend_apply]
    cases hpid : bk.projectId (jsUpper (jsTrim pk)) with
    | error e =>
      refine ⟨[Call.getProject (jsUpper (jsTrim pk))], Except.error e, rfl, ?_⟩
      intro c hc
      rcases List.mem_singleton.mp hc with rfl
      rfl
    | ok pid =>
      dsimp only
      cases hsch : bk.schemeDefaultWorkflow pid with
      | error e =>
        refine ⟨[Call.getProject (jsUpper (jsTrim pk)), Call.getScheme pid],
          Except.error e, ?_, ?_⟩
        · simp [List.append_assoc]; try rfl
        · intro c hc
          rcases List.mem_cons.mp hc with rfl | hc
          · rfl
          · rcases List.mem_singleton.mp hc with rfl
            rfl
      | ok o =>
        cases o with
        | none =>
          refine ⟨[Call.getProject (jsUpper (jsTrim pk)), Call.getScheme pid],
            Except.error (JErr.workflow ("No workflow scheme found for project "
              ++ jsUpper (jsTrim pk))), ?_, ?_⟩
          · simp [List.append_assoc]; try rfl
          · intro c hc
            rcases List.mem_cons.mp hc with rfl | hc
            · rfl
            · rcases List.mem_singleton.mp hc with rfl
              rfl
        | some w =>
          refine ⟨[Call.getProject (jsUpper (jsTrim pk)), Call.getScheme pid],
            Except.ok w, ?_, ?_⟩
          · simp [List.append_assoc]; try rfl
          · intro c hc
            rcases List.mem_cons.mp hc with rfl | hc
            · rfl
            · rcases List.mem_singleton.mp hc with rfl
              rfl

/-- `getWorkflowStateMachine` may update the cache but issues no
transition POST. -/
lemma getWorkflowStateMachine_run (bk : Backend) (wn : String)
    (st : ClientState) :
    ∃ Δ cache' res, getWorkflowStateMachine bk wn st =
        (res, { cache := cache', calls := st.calls ++ Δ }) ∧
      ∀ c ∈ Δ, isPostCall c = false := by
  unfold getWorkflowStateMachine
  by_cases hwn : wn = ""
  · refine ⟨[], st.cache, Except.error (JErr.validation
      "Workflow name must be a non-empty string" "workflowName"), ?_, ?_⟩
    · rw [if_pos hwn]
      simp only [List.append_nil]
      rfl
    · intro c hc
      cases hc
  · rw [if_neg hwn]
    simp only [JiraM.bind_def, JiraM.bind_apply]
    rw [show getCache wn st = (Except.ok (lookupA st.cache wn), st) from rfl]
    cases hcc : lookupA st.cache wn with
    | some sm =>
      refine ⟨[], st.cache, Except.ok sm, ?_, ?_⟩
      · simp only [List.append_nil]
        rfl
      · intro c hc
        cases hc
    | none =>
      dsimp only
      simp only [JiraM.bind_def, JiraM.bind_apply, callBackend_apply]
      cases hws : bk.workflowSearch wn with
      | error e =>
        refine ⟨[Call.workflowSearch wn], st.cache, Except.error e, rfl, ?_⟩
        intro c hc
        rcases List.mem_singleton.mp hc with rfl
        rfl
      | ok o =>
        cases o with
        | none =>
          refine ⟨[Call.workflowSearch wn], st.cache,
            Except.error (JErr.workflow ("Workflow not found: " ++ wn)), ?_, ?_⟩
          · rfl
          · intro c hc
            rcases List.mem_singleton.mp hc with rfl
            rfl
        | some raw =>
          refine ⟨[Call.workflowSearch wn],
            setA st.cache wn (buildStateMachine raw),
            Except.ok (buildStateMachine raw), ?_, ?_⟩
          · rfl
          · intro c hc
            rcases List.mem_singleton.mp hc with rfl
            rfl

/-- Characterization of a whole `transitionIssue` run started on an empty
request log: every POST except the last carries only auto-populated
defaults, and a successful run's last POST retains every non-falsy
caller-supplied field. -/
lemma transitionIssue_run (bk : Backend) (issueKey : JsInput) (target : String)
    (excl : List String) (fields : List (String × FieldValue)) (vk : String)
    (cache0 : List (String × StateMachine))
    (hval : validateIssueKey issueKey = Except.ok vk) :
    ∃ calls' cache' res,
      transitionIssue bk issueKey target excl fields ⟨cache0, []⟩ =
        (res, ⟨cache', calls'⟩) ∧
      (∀ i p, (postsOf calls').get? i = some p →
        i + 1 < (postsOf calls').length → autoOnly bk vk p) ∧
      (res = Except.ok true → ∀ pl, (postsOf calls').getLast? = some pl →
        ∀ fid v, lookupA fields fid = some v → fieldFalsy (some v) = false →
          lookupA pl.fields fid = some v) := by
  have hidem := validateIssueKey_idem hval
  unfold transitionIssue
  rw [hval]
  dsimp only
  by_cases htgt : target = ""
  · rw [if_pos htgt]
    refine ⟨[], cache0, Except.error (JErr.validation
      "Target status name must be a non-empty string" "targetStatusName"),
      rfl, ?_, ?_⟩
    · intro i p hp _
      rw [show postsOf ([] : List Call) = [] from rfl] at hp
      cases i <;> cases hp
    · intro _ pl hpl
      rw [show postsOf ([] : List Call) = [] from rfl] at hpl
      cases hpl
  · rw [if_neg htgt]
    simp only [JiraM.bind_def, JiraM.bind_apply, callBackend_apply,
      List.nil_append]
    cases hiss : bk.issue vk with
    | error e =>
      dsimp only
      refine ⟨[Call.getIssue vk], cache0, Except.error e, rfl, ?_, ?_⟩
      · intro i p hp _
        rw [show postsOf [Call.getIssue vk] = [] from rfl] at hp
        cases i <;> cases hp
      · intro _ pl hpl
        rw [show postsOf [Call.getIssue vk] = [] from rfl] at hpl
        cases hpl
    | ok issueData =>
      dsimp only
      by_cases hsame : issueData.statusName = target
      · rw [if_pos hsame]
        refine ⟨[Call.getIssue vk], cache0, Except.ok true, rfl, ?_, ?_⟩
        · intro i p hp _
          rw [show postsOf [Call.getIssue vk] = [] from rfl] at hp
          cases i <;> cases hp
        · intro _ pl hpl
          rw [show postsOf [Call.getIssue vk] = [] from rfl] at hpl
          cases hpl
      · rw [if_neg hsame]
        obtain ⟨Δw, resw, hrunw, hnpw⟩ :=
          getProjectWorkflowName_run bk (extractProjectKey vk)
            ⟨cache0, [Call.getIssue vk]⟩
        simp only [JiraM.bind_def, JiraM.bind_apply]
        rw [hrunw]
        dsimp only [List.cons_append, List.nil_append]
        cases resw with
        | error e =>
          have hposts : postsOf (Call.getIssue vk :: Δw) = [] := by
            rw [show postsOf (Call.getIssue vk :: Δw) = postsOf Δw from rfl,
              postsOf_nil_of_noPost hnpw]
          refine ⟨Call.getIssue vk :: Δw, cache0, Except.error e, rfl, ?_, ?_⟩
          · intro i p hp _
            rw [hposts] at hp
            cases i <;> cases hp
          · intro _ pl hpl
            rw [hposts] at hpl
            cases hpl
        | ok wn =>
          dsimp only
          obtain ⟨Δm, cache1, resm, hrunm, hnpm⟩ :=
            getWorkflowStateMachine_run bk wn
              ⟨cache0, Call.getIssue vk :: Δw⟩
          try simp only [JiraM.bind_def, JiraM.bind_apply]
          rw [hrunm]
          dsimp only [List.cons_append, List.nil_append]
          cases resm with
          | error e =>
            have hposts : postsOf (Call.getIssue vk :: (Δw ++ Δm)) = [] := by
              rw [show postsOf (Call.getIssue vk :: (Δw ++ Δm)) =
                postsOf (Δw ++ Δm) from rfl, postsOf_append,
                postsOf_nil_of_noPost hnpw, postsOf_nil_of_noPost hnpm]
              rfl
            refine ⟨Call.getIssue vk :: (Δw ++ Δm), cache1, Except.error e,
              rfl, ?_, ?_⟩
            · intro i p hp _
              rw [hposts] at hp
              cases i <;> cases hp
            · intro _ pl hpl
              rw [hposts] at hpl
              cases hpl
          | ok sm =>
            dsimp only
            have hposts0 : postsOf (Call.getIssue vk :: (Δw ++ Δm)) = [] := by
              rw [show postsOf (Call.getIssue vk :: (Δw ++ Δm)) =
                postsOf (Δw ++ Δm) from rfl, postsOf_append,
                postsOf_nil_of_noPost hnpw, postsOf_nil_of_noPost hnpm]
              rfl
            cases hpath : findShortestTransitionPath sm issueData.statusName
                target excl with
            | error e =>
              refine ⟨Call.getIssue vk :: (Δw ++ Δm), cache1, Except.error e,
                rfl, ?_, ?_⟩
              · intro i p hp _
                rw [hposts0] at hp
                cases i <;> cases hp
              · intro _ pl hpl
                rw [hposts0] at hpl
                cases hpl
            | ok opt =>
              cases opt with
              | none =>
                refine ⟨Call.getIssue vk :: (Δw ++ Δm), cache1,
                  Except.error (JErr.transition
                    ("No transition path found from \"" ++
                      issueData.statusName ++ "\" to \"" ++ target ++ "\"") vk),
                  rfl, ?_, ?_⟩
                · intro i p hp _
                  rw [hposts0] at hp
                  cases i <;> cases hp
                · intro _ pl hpl
                  rw [hposts0] at hpl
                  cases hpl
              | some path =>
                dsimp only
                cases path with
                | nil =>
                  simp only [JiraM.bind_def, JiraM.bind_apply, executePath_nil,
                    JiraM.pure_apply, JiraM.pure_def]
                  refine ⟨Call.getIssue vk :: (Δw ++ Δm), cache1,
                    Except.ok true, rfl, ?_, ?_⟩
                  · intro i p hp _
                    rw [hposts0] at hp
                    cases i <;> cases hp
                  · intro _ pl hpl
                    rw [hposts0] at hpl
                    cases hpl
                | cons s1 srest =>
                  obtain ⟨Δe, rese, hrune, hidx, hlast⟩ :=
                    executePath_run bk vk fields hidem (s1 :: srest)
                      ⟨cache1, Call.getIssue vk :: (Δw ++ Δm)⟩
                  try simp only [JiraM.bind_def, JiraM.bind_apply]
                  rw [hrune]
                  dsimp only [List.cons_append]
                  have hposts : postsOf (Call.getIssue vk :: ((Δw ++ Δm) ++ Δe))
                      = postsOf Δe := by
                    rw [show postsOf (Call.getIssue vk :: ((Δw ++ Δm) ++ Δe)) =
                      postsOf ((Δw ++ Δm) ++ Δe) from rfl, postsOf_append,
                      postsOf_append, postsOf_nil_of_noPost hnpw,
                      postsOf_nil_of_noPost hnpm]
                    rfl
                  cases rese with
                  | error e =>
                    refine ⟨Call.getIssue vk :: ((Δw ++ Δm) ++ Δe), cache1,
                      Except.error e, rfl, ?_, ?_⟩
                    · intro i p hp hlen
                      rw [hposts] at hp hlen
                      exact hidx i p hp hlen
                    · intro hok
                      cases hok
                  | ok u =>
                    cases u
                    dsimp only
                    refine ⟨Call.getIssue vk :: ((Δw ++ Δm) ++ Δe), cache1,
                      Except.ok true, rfl, ?_, ?_⟩
                    · intro i p hp hlen
                      rw [hposts] at hp hlen
                      exact hidx i p hp hlen
                    · intro _ pl hpl fid v hv hnf
                      obtain ⟨pl0, hpl0, hcal⟩ :=
                        hlast rfl (by intro hc; cases hc)
                      rw [hposts, hpl0] at hpl
                      injection hpl with hpl
                      rw [← hpl]
                      exact hcal fid v hv hnf

/-- C8: in every `transitionIssue` run (started on a fresh request log,
with a validly keyed issue), every transition POST except the last one
carries only auto-populated defaults of that step's required fields —
never the caller-supplied fields — and when the run succeeds, the last
POST's payload retains every non-falsy caller-supplied field; so the
caller's fields reach Jira only in the final step's submission. -/
theorem claim8_caller_fields_only_on_final_step
    (bk : Backend) (issueKey : JsInput) (target : String)
    (excl : List String) (fields : List (String × FieldValue)) (vk : String)
    (cache0 : List (String × StateMachine)) (res : Except JErr Bool)
    (st' : ClientState)
    (hval : validateIssueKey issueKey = Except.ok vk)
    (hrun : transitionIssue bk issueKey target excl fields ⟨cache0, []⟩ =
      (res, st')) :
    (∀ i p, (postsOf st'.calls).get? i = some p →
      i + 1 < (postsOf st'.calls).length → autoOnly bk vk p) ∧
    (res = Except.ok true → ∀ pl, (postsOf st'.calls).getLast? = some pl →
      ∀ fid v, lookupA fields fid = some v → fieldFalsy (some v) = false →
        lookupA pl.fields fid = some v) := by
  obtain ⟨calls', cache', res0, hchar, hidx, hlast⟩ :=
    transitionIssue_run bk issueKey target excl fields vk cache0 hval
  rw [hchar] at hrun
  injection hrun with hres hst
  subst hres
  subst hst
  exact ⟨hidx, hlast⟩

/-- Witness for C8: a concrete two-step run (A → B → C against `bk8` with
caller field `f`), whose intermediate POST is auto-defaults-only and whose
final POST retains the caller's field. -/
theorem claim8_witness :
    (∀ i p, (postsOf calls8).get? i = some p →
      i + 1 < (postsOf calls8).length → autoOnly bk8 "DEX-1" p) ∧
    ((Except.ok true : Except JErr Bool) = Except.ok true →
      ∀ pl, (postsOf calls8).getLast? = some pl →
        ∀ fid v, lookupA [("f", FieldValue.str "x")] fid = some v →
          fieldFalsy (some v) = false → lookupA pl.fields fid = some v) :=
  claim8_caller_fields_only_on_final_step bk8 (JsInput.jstr "dex-1") "C" []
    [("f", FieldValue.str "x")] "DEX-1" [] (Except.ok true)
    ⟨[("WF", buildStateMachine raw8)], calls8⟩ rfl rfl

/-! ### Claim C4 -/

/-- `Promise.allSettled` never rejects: settling a batch always yields
`ok` with one outcome per key. -/
lemma settleAll_run (bk : Backend) (target : String) (excl : List String)
    (fields : List (String × FieldValue)) :
    ∀ (keys : List String) (st : ClientState),
      ∃ rs st', settleAll bk target excl fields keys st =
          (Except.ok rs, st') ∧ rs.length = keys.length := by
  intro keys
  induction keys with
  | nil =>
    intro st
    exact ⟨[], st, rfl, rfl⟩
  | cons k rest ih =>
    intro st
    unfold settleAll
    simp only [JiraM.bind_def, JiraM.bind_apply, JiraM.tryCatch]
    rcases h0 : transitionIssue bk (JsInput.jstr k) target excl fields st with
      ⟨r0, s0⟩
    cases r0 with
    | ok b =>
      dsimp only
      obtain ⟨rs, st', hrest, hlen⟩ := ih s0
      rw [show JiraM.pure (Except.ok b : Except JErr Bool) s0 =
        (Except.ok (Except.ok b), s0) from rfl]
      dsimp only
      rw [hrest]
      dsimp only
      refine ⟨Except.ok b :: rs, st', rfl, ?_⟩
      rw [List.length_cons, List.length_cons, hlen]
    | error e =>
      dsimp only
      obtain ⟨rs, st', hrest, hlen⟩ := ih s0
      rw [show JiraM.pure (Except.error e : Except JErr Bool) s0 =
        (Except.ok (Except.error e), s0) from rfl]
      dsimp only
      rw [hrest]
      dsimp only
      refine ⟨Except.error e :: rs, st', rfl, ?_⟩
      rw [List.length_cons, List.length_cons, hlen]

/-- Counting the settled outcomes: fulfilled plus rejected is the batch
size, and there is one error message per rejection. -/
lemma settle_counts : ∀ (l : List (Except JErr Bool)),
    (l.filter (fun r => r.isOk)).length +
      (l.filter (fun r => ¬ r.isOk)).length = l.length ∧
    (l.filterMap (fun r => match r with
      | Except.error e => some e.message
      | Except.ok _ => none)).length =
      (l.filter (fun r => ¬ r.isOk)).length := by
  intro l
  induction l with
  | nil => exact ⟨rfl, rfl⟩
  | cons r t ih =>
    obtain ⟨ih1, ih2⟩ := ih
    cases r with
    | ok b =>
      rw [show List.filter (fun r => r.isOk) (Except.ok b :: t) =
          Except.ok b :: List.filter (fun r => r.isOk) t from rfl,
        show List.filter (fun r => ¬ r.isOk) (Except.ok b :: t) =
          List.filter (fun r => ¬ r.isOk) t from rfl,
        show List.filterMap (fun r => match r with
            | Except.error e => some e.message
            | Except.ok _ => none) (Except.ok b :: t) =
          List.filterMap (fun r => match r with
            | Except.error e => some e.message
            | Except.ok _ => none) t from rfl,
        List.length_cons, List.length_cons]
      exact ⟨by omega, ih2⟩
    | error e =>
      rw [show List.filter (fun r => r.isOk) (Except.error e :: t) =
          List.filter (fun r => r.isOk) t from rfl,
        show List.filter (fun r => ¬ r.isOk) (Except.error e :: t) =
          Except.error e :: List.filter (fun r => ¬ r.isOk) t from rfl,
        show List.filterMap (fun r => match r with
            | Except.error e => some e.message
            | Except.ok _ => none) (Except.error e :: t) =
          e.message :: List.filterMap (fun r => match r with
            | Except.error e => some e.message
            | Except.ok _ => none) t from rfl,
        List.length_cons, List.length_cons, List.length_cons]
      exact ⟨by omega, by omega⟩

/-- C4 counterexample: in `updateByPR` the text search finds `AB-1` and
`AB-2`, yet the failure of `AB-1`'s transition propagates to the caller
and `AB-2` is never attempted — no request naming `AB-2` is ever made. -/
theorem claim4_counterexample :
    bkPR.searchIssues "text ~ \"u\"" =
      Except.ok [⟨"AB-1"⟩, ⟨"AB-2"⟩] ∧
    (updateByPR bkPR "u" "Done" [] ⟨[], []⟩).1 =
      Except.error (JErr.api 500 "/issue") ∧
    Call.getIssue "AB-2" ∉ (updateByPR bkPR "u" "Done" [] ⟨[], []⟩).2.calls :=
  ⟨rfl, rfl, by decide⟩

/-- C4 (amended): the two `allSettled` batch operations do isolate
per-issue failures — `updateIssuesFromCommitHistory` always fulfills, with
fulfilled plus rejected totalling the batch and one error record per
rejection, and `updateByStatus` returns its found issues whatever the
per-issue outcomes — but `updateByPR` awaits its transitions sequentially
with no per-issue catch, so one issue's failure aborts the remaining
issues (see the counterexample). -/
theorem claim4_batch_failure_isolation :
    (∀ (bk : Backend) (issueKeys : List String) (target : String)
       (excl : List String) (fields : List (String × FieldValue))
       (st : ClientState),
      ∃ summary st',
        updateIssuesFromCommitHistory bk issueKeys target excl fields st =
          (Except.ok summary, st') ∧
        summary.successful + summary.failed = issueKeys.length ∧
        summary.errors.length = summary.failed) ∧
    (∀ (bk : Backend) (cur new : String)
       (fields : List (String × FieldValue)) (issues : List SearchIssue)
       (st : ClientState),
      bk.searchIssues ("status = \"" ++ cur ++ "\"") = Except.ok issues →
      cur ≠ "" →
      ∃ st', updateByStatus bk cur new fields st =
        (Except.ok issues, st')) := by
  constructor
  · intro bk issueKeys target excl fields st
    unfold updateIssuesFromCommitHistory
    by_cases hlen : issueKeys.length = 0
    · rw [if_pos hlen]
      exact ⟨⟨0, 0, []⟩, st, rfl, by simp [hlen], rfl⟩
    · rw [if_neg hlen]
      obtain ⟨rs, st', hsettle, hrs⟩ :=
        settleAll_run bk target excl fields issueKeys st
      simp only [JiraM.bind_def, JiraM.bind_apply]
      rw [hsettle]
      dsimp only
      refine ⟨_, st', rfl, ?_, ?_⟩
      · rw [← hrs]
        exact (settle_counts rs).1
      · exact (settle_counts rs).2
  · intro bk cur new fields issues st hsearch hcur
    unfold updateByStatus findByStatus
    rw [if_neg hcur]
    dsimp only
    simp only [JiraM.bind_def, JiraM.bind_apply, callBackend_apply, hsearch]
    obtain ⟨rs, st', hsettle, _⟩ := settleAll_run bk new defaultExcludeStates
      fields (issues.map SearchIssue.key)
      { st with calls := st.calls ++ [Call.search ("status = \"" ++ cur ++ "\"")] }
    rw [hsettle]
    dsimp only
    exact ⟨st', rfl⟩

/-- Witness for C4: the batch operations settle both keys against `bkPR`
even though `AB-1`'s transition fails. -/
theorem claim4_witness :
    (∃ summary st',
      updateIssuesFromCommitHistory bkPR ["AB-1", "AB-2"] "Done"
        defaultExcludeStates [] ⟨[], []⟩ = (Except.ok summary, st') ∧
      summary.successful + summary.failed = 2 ∧
      summary.errors.length = summary.failed) ∧
    (∃ st', updateByStatus bkPR "X" "Done" [] ⟨[], []⟩ =
      (Except.ok [⟨"AB-1"⟩, ⟨"AB-2"⟩], st')) :=
  ⟨claim4_batch_failure_isolation.1 bkPR ["AB-1", "AB-2"] "Done"
      defaultExcludeStates [] ⟨[], []⟩,
   claim4_batch_failure_isolation.2 bkPR "X" "Done" [] [⟨"AB-1"⟩, ⟨"AB-2"⟩]
      ⟨[], []⟩ rfl (by decide)⟩

/-! ### Claim C9 -/

/-- C9: a key is accepted exactly when it is a non-empty string whose
trimmed-and-uppercased form matches `^[A-Z][A-Z0-9]+-\d+$`, and the
accepted key is operated on in that normalized form; every keyed public
operation (`transitionIssue`, `getTransitions`, `getTransitionDetails`,
`updateCustomField`, `updateCustomFields`, `getCustomField`) propagates
the validation error of a rejected key without touching the backend, and
addresses every backend request for an accepted key with the normalized
key. -/
theorem claim9_key_validation_and_normalization :
    (∀ k : JsInput, (∃ nk, validateIssueKey k = Except.ok nk) ↔
      ∃ s, k = JsInput.jstr s ∧ s ≠ "" ∧
        issueKeyPattern (jsUpper (jsTrim s)) = true) ∧
    (∀ s nk, validateIssueKey (JsInput.jstr s) = Except.ok nk →
      nk = jsUpper (jsTrim s)) ∧
    (∀ (bk : Backend) (k : JsInput) (e : JErr) (target : String)
       (excl : List String) (fields : List (String × FieldValue))
       (st : ClientState), validateIssueKey k = Except.error e →
      transitionIssue bk k target excl fields st = (Except.error e, st)) ∧
    (∀ (bk : Backend) (k : JsInput) (e : JErr) (st : ClientState),
      validateIssueKey k = Except.error e →
      getTransitions bk k st = (Except.error e, st)) ∧
    (∀ (bk : Backend) (k : JsInput) (e : JErr) (tid : String)
       (st : ClientState), validateIssueKey k = Except.error e →
      getTransitionDetails bk k tid st = (Except.error e, st)) ∧
    (∀ (bk : Backend) (k : JsInput) (e : JErr) (cfid : String)
       (v : FieldValue) (st : ClientState),
      validateIssueKey k = Except.error e →
      updateCustomField bk k cfid v st = (Except.error e, st)) ∧
    (∀ (bk : Backend) (k : JsInput) (e : JErr)
       (cfs : List (String × FieldValue)) (st : ClientState),
      validateIssueKey k = Except.error e →
      updateCustomFields bk k cfs st = (Except.error e, st)) ∧
    (∀ (bk : Backend) (k : JsInput) (e : JErr) (cfid : String)
       (st : ClientState), validateIssueKey k = Except.error e →
      getCustomField bk k cfid st = (Except.error e, st)) ∧
    (∀ (bk : Backend) (k : JsInput) (nk : String) (st : ClientState),
      validateIssueKey k = Except.ok nk →
      getTransitions bk k st =
        (bk.transitions nk,
         { st with calls := st.calls ++ [Call.getTransitions nk] })) ∧
    (∀ (bk : Backend) (k : JsInput) (nk tid : String) (st : ClientState),
      validateIssueKey k = Except.ok nk → tid ≠ "" →
      getTransitionDetails bk k tid st =
        ((bk.transitionDetails nk tid).map
          (fun ts => ts.find? (fun t => t.id = tid)),
         { st with calls := st.calls ++ [Call.getTransitionDetails nk tid] })) ∧
    (∀ (bk : Backend) (k : JsInput) (nk cfid : String) (v : FieldValue)
       (st : ClientState),
      validateIssueKey k = Except.ok nk → cfid ≠ "" →
      updateCustomField bk k cfid v st =
        ((bk.putFields nk [(cfid, v)]).map (fun _ => true),
         { st with calls := st.calls ++ [Call.putFields nk [(cfid, v)]] })) ∧
    (∀ (bk : Backend) (k : JsInput) (nk : String)
       (cfs : List (String × FieldValue)) (st : ClientState),
      validateIssueKey k = Except.ok nk → cfs ≠ [] →
      updateCustomFields bk k cfs st =
        ((bk.putFields nk cfs).map (fun _ => true),
         { st with calls := st.calls ++ [Call.putFields nk cfs] })) ∧
    (∀ (bk : Backend) (k : JsInput) (nk cfid : String) (st : ClientState),
      validateIssueKey k = Except.ok nk → cfid ≠ "" →
      getCustomField bk k cfid st =
        (bk.issueField nk cfid,
         { st with calls := st.calls ++ [Call.getIssueField nk cfid] })) ∧
    (∀ (bk : Backend) (k : JsInput) (nk target : String)
       (excl : List String) (fields : List (String × FieldValue))
       (st : ClientState),
      validateIssueKey k = Except.ok nk → target ≠ "" →
      ∃ res cache' tail,
        transitionIssue bk k target excl fields st =
          (res, ⟨cache', st.calls ++ Call.getIssue nk :: tail⟩)) := by
  refine ⟨?_, ?_, ?_, ?_, ?_, ?_, ?_, ?_, ?_, ?_, ?_, ?_, ?_, ?_⟩
  · intro k
    constructor
    · rintro ⟨nk, hok⟩
      obtain ⟨s, hk, hs, hnk, hp⟩ := validateIssueKey_ok_shape hok
      exact ⟨s, hk, hs, hnk ▸ hp⟩
    · rintro ⟨s, rfl, hs, hp⟩
      refine ⟨jsUpper (jsTrim s), ?_⟩
      unfold validateIssueKey
      dsimp only
      rw [if_neg hs, if_pos hp]
  · intro s nk hok
    obtain ⟨s', hk, _, hnk, _⟩ := validateIssueKey_ok_shape hok
    injection hk with hk
    rw [hnk, hk]
  · intro bk k e target excl fields st hval
    unfold transitionIssue
    rw [hval]
    rfl
  · intro bk k e st hval
    exact getTransitions_run_err bk st hval
  · intro bk k e tid st hval
    unfold getTransitionDetails
    rw [hval]
    rfl
  · intro bk k e cfid v st hval
    unfold updateCustomField
    rw [hval]
    rfl
  · intro bk k e cfs st hval
    unfold updateCustomFields
    rw [hval]
    rfl
  · intro bk k e cfid st hval
    unfold getCustomField
    rw [hval]
    rfl
  · intro bk k nk st hval
    exact getTransitions_run_ok bk st hval
  · intro bk k nk tid st hval htid
    exact getTransitionDetails_run_ok bk tid st hval htid
  · intro bk k nk cfid v st hval hcfid
    unfold updateCustomField
    rw [hval]
    dsimp only
    rw [if_neg hcfid]
    simp only [JiraM.bind_def, JiraM.bind_apply, callBackend_apply]
    cases hput : bk.putFields nk [(cfid, v)] with
    | ok u =>
      cases u
      rfl
    | error e => rfl
  · intro bk k nk cfs st hval hcfs
    unfold updateCustomFields
    rw [hval]
    dsimp only
    rw [if_neg (fun h => hcfs (List.length_eq_zero.mp h))]
    simp only [JiraM.bind_def, JiraM.bind_apply, callBackend_apply]
    cases hput : bk.putFields nk cfs with
    | ok u =>
      cases u
      rfl
    | error e => rfl
  · intro bk k nk cfid st hval hcfid
    unfold getCustomField
    rw [hval]
    dsimp only
    rw [if_neg hcfid]
    rfl
  · intro bk k nk target excl fields st hval htgt
    have hidem := validateIssueKey_idem hval
    unfold transitionIssue
    rw [hval]
    dsimp only
    rw [if_neg htgt]
    simp only [JiraM.bind_def, JiraM.bind_apply, callBackend_apply]
    cases hiss : bk.issue nk with
    | error e =>
      exact ⟨Except.error e, st.cache, [], rfl⟩
    | ok issueData =>
      dsimp only
      by_cases hsame : issueData.statusName = target
      · rw [if_pos hsame]
        exact ⟨Except.ok true, st.cache, [], rfl⟩
      · rw [if_neg hsame]
        obtain ⟨Δw, resw, hrunw, _⟩ :=
          getProjectWorkflowName_run bk (extractProjectKey nk)
            { st with calls := st.calls ++ [Call.getIssue nk] }
        try simp only [JiraM.bind_def, JiraM.bind_apply]
        rw [hrunw]
        dsimp only
        cases resw with
        | error e =>
          exact ⟨Except.error e, st.cache, Δw,
            by first | rfl | (simp [List.append_assoc]; try rfl)⟩
        | ok wn =>
          obtain ⟨Δm, cache1, resm, hrunm, _⟩ :=
            getWorkflowStateMachine_run bk wn
              ⟨st.cache, (st.calls ++ [Call.getIssue nk]) ++ Δw⟩
          try simp only [JiraM.bind_def, JiraM.bind_apply]
          rw [hrunm]
          dsimp only
          cases resm with
          | error e =>
            exact ⟨Except.error e, cache1, Δw ++ Δm,
              by first | rfl | (simp [List.append_assoc]; try rfl)⟩
          | ok sm =>
            cases hpath : findShortestTransitionPath sm issueData.statusName
                target excl with
            | error e =>
              try simp only [hpath]
              exact ⟨Except.error e, cache1, Δw ++ Δm,
                by first | rfl | (simp [List.append_assoc]; try rfl)⟩
            | ok o =>
              try simp only [hpath]
              cases o with
              | none =>
                exact ⟨Except.error (JErr.transition
                  ("No transition path found from \"" ++ issueData.statusName
                    ++ "\" to \"" ++ target ++ "\"") nk), cache1, Δw ++ Δm,
                  by first | rfl | (simp [List.append_assoc]; try rfl)⟩
              | some path =>
                dsimp only
                obtain ⟨Δe, rese, hrune, _, _⟩ :=
                  executePath_run bk nk fields hidem path
                    ⟨cache1, ((st.calls ++ [Call.getIssue nk]) ++ Δw) ++ Δm⟩
                try simp only [JiraM.bind_def, JiraM.bind_apply]
                rw [hrune]
                dsimp only
                cases rese with
                | error e =>
                  exact ⟨Except.error e, cache1, (Δw ++ Δm) ++ Δe,
                    by first | rfl | (simp [List.append_assoc]; try rfl)⟩
                | ok u =>
                  cases u
                  dsimp only
                  exact ⟨Except.ok true, cache1, (Δw ++ Δm) ++ Δe,
                    by first | rfl | (simp [List.append_assoc]; try rfl)⟩

/-- Witness for C9: a lowercase key with surrounding whitespace is
operated on as `DEX-36` (the fetch is addressed to the normalized key),
and a non-string key is rejected before any request. -/
theorem claim9_witness :
    getTransitions bkFail (JsInput.jstr " dex-36 ") ⟨[], []⟩ =
      (bkFail.transitions "DEX-36",
       ⟨[], [Call.getTransitions "DEX-36"]⟩) ∧
    getCustomField bkFail JsInput.nonString "c" ⟨[], []⟩ =
      (Except.error (JErr.validation "Issue key must be a non-empty string"
        "issueKey"), ⟨[], []⟩) :=
  ⟨claim9_key_validation_and_normalization.2.2.2.2.2.2.2.2.1 bkFail
      (JsInput.jstr " dex-36 ") "DEX-36" ⟨[], []⟩ rfl,
   claim9_key_validation_and_normalization.2.2.2.2.2.2.2.1 bkFail
      JsInput.nonString (JErr.validation "Issue key must be a non-empty string"
        "issueKey") "c" ⟨[], []⟩ rfl⟩

end Jira
